import Mathlib

/-!  Verification development for the brilirs interpreter core.

This file gives a shallow embedding of `src/brilirs/src/interp.rs` (together
with the error taxonomy of `src/brilirs/src/error.rs`) and proves properties
of the embedded code.

Modelling conventions, used throughout:

* Machine integers are modelled as `Int`/`Nat` with explicit wrapping.
  `i64` values live in `[-2^63, 2^63)`; the Rust cast `i as usize` is
  `i64ToUsize` (reduction mod `2^64`); `wrapping_add`/`wrapping_sub`/
  `wrapping_mul`/`wrapping_div` are `i64WrappingAdd` etc.; the `u32`
  instruction counter is a `Nat` reduced mod `2^32` exactly where the Rust
  code adds to it.  Plain Rust `+` on machine integers (as in `Pointer::add`
  and `instruction_count += ...`) is modelled with two's-complement wrapping,
  the semantics of the shipped (release-mode) interpreter.
* Rust panics (`unwrap`, `unreachable!`, out-of-bounds indexing, division by
  zero inside `wrapping_div`, `unimplemented!`) are modelled as the distinct
  outcome `Failure.fault`; `InterpError` values travel in `Except` as in the
  source, and position enrichment mirrors `InterpError::add_pos`.
* The `FxHashMap` of the heap is an association list with the newest binding
  first; all keys inserted are fresh (the allocation counter), so the list
  has distinct keys whenever the source's map does.  The `Vec` used as the
  stack of saved frame pointers is a list whose head is the vector's end
  (its push/pop side).
* IEEE-754 doubles are kept abstract: a float is an opaque bit pattern
  (`Nat`) and all float operations, rendering and parsing are parameters
  bundled in `FloatOps`.  No property proved here depends on their values.
* The block walker takes explicit fuel; running out of fuel is the distinct
  outcome `Failure.outOfFuel`, so "the execution terminates" is expressible
  as "some fuel gives a result other than `outOfFuel`".
* `State.blocks_entered` is ghost instrumentation: it logs the length of the
  instruction list of every block entered, appended at exactly the point
  where `execute` adds to `instruction_count`, and nothing else touches it.
  It exists only so that "the sum over all executed blocks" is definable.
* `bril_rs` and `basic_block.rs` are not part of the staged sources; the
  shapes they provide (`Instruction`, `BBProgram`, `BBFunction`,
  `BasicBlock`) are modelled from the spec, as marked on each definition.
  An instruction and its numified twin are merged into one record, using the
  spec's guarantee that the two lists are index-aligned.
-/

namespace Brilirs

/-- Two's-complement wrap of an integer into the `i64` range `[-2^63, 2^63)`. -/
def wrap64 (z : Int) : Int := (z + 2 ^ 63) % 2 ^ 64 - 2 ^ 63

/-- The Rust cast `(z : i64) as usize` on a 64-bit platform: reduction mod `2^64`. -/
def i64ToUsize (z : Int) : Nat := (z % 2 ^ 64).toNat

/-- `i64::wrapping_add`. -/
def i64WrappingAdd (a b : Int) : Int := wrap64 (a + b)

/-- `i64::wrapping_sub`. -/
def i64WrappingSub (a b : Int) : Int := wrap64 (a - b)

/-- `i64::wrapping_mul`. -/
def i64WrappingMul (a b : Int) : Int := wrap64 (a * b)

/-- `i64::wrapping_div`: truncated division, wrapping on the one overflow case
`i64::MIN / -1`; division by zero panics (`none`). -/
def i64WrappingDiv (a b : Int) : Option Int :=
  if b = 0 then none else some (wrap64 (Int.tdiv a b))

/-- Modelled from the spec: a source position (`bril_rs::Position`). -/
structure Position where
  row : Nat
  col : Nat
deriving DecidableEq

/-- Modelled from the spec: `bril_rs::Type`. -/
inductive BrilType
  | int
  | bool
  | float
  | pointer (t : BrilType)
deriving DecidableEq

/-- `interp.rs` `Pointer`: a heap handle and a signed 64-bit offset. -/
structure Pointer where
  base : Nat
  offset : Int
deriving DecidableEq

/-- `interp.rs` `Value`; a float is an abstract bit pattern. -/
inductive Value
  | int (i : Int)
  | bool (b : Bool)
  | float (bits : Nat)
  | pointer (p : Pointer)
  | uninitialized
deriving DecidableEq

/-- `Value::default()`. -/
def Value.defaultVal : Value := .uninitialized

/-- `error.rs` `InterpError` (the variants the modelled core can produce). -/
inductive InterpError
  | memLeak
  | usingUninitializedMemory
  | noLastLabel
  | noMainFunction
  | nonEmptyRetForFunc (name : String)
  | cannotAllocSize (n : Int)
  | illegalFree (base : Nat) (offset : Int)
  | invalidMemoryAccess (base : Nat) (offset : Int)
  | badNumFuncArgs (expected : Nat) (actual : Nat)
  | phiMissingLabel (label : String)
  | badFuncArgType (expected : BrilType) (found : String)
deriving DecidableEq

/-- An outcome of running embedded code: a fresh `InterpError`, a
`PositionalInterpError`, a Rust panic (`fault`), or fuel exhaustion (an
artifact of the embedding, not of the source). -/
inductive Failure
  | interp (e : InterpError)
  | positioned (e : InterpError) (pos : Option Position)
  | fault
  | outOfFuel
deriving DecidableEq

/-- `InterpError::add_pos`: a fresh error gets the position, an already
positioned error (the `PositionalInterpErrorConversion` case) and a panic
pass through unchanged. -/
def Failure.addPos : Failure → Option Position → Failure
  | .interp e, pos => .positioned e pos
  | f, _ => f

/-- `FxHashMap::get` on the heap's association list. -/
def hmLookup : List (Nat × List Value) → Nat → Option (List Value)
  | [], _ => none
  | (k, v) :: rest, b => if k = b then some v else hmLookup rest b

/-- `FxHashMap::remove`: the removed value (if any) and the remaining list. -/
def hmRemove : List (Nat × List Value) → Nat → Option (List Value) × List (Nat × List Value)
  | [], _ => (none, [])
  | (k, v) :: rest, b =>
    if k = b then (some v, rest)
    else
      let r := hmRemove rest b
      (r.1, (k, v) :: r.2)

/-- `FxHashMap::insert` (replacing any old binding of the key). -/
def hmInsert (m : List (Nat × List Value)) (k : Nat) (v : List Value) :
    List (Nat × List Value) :=
  (k, v) :: (hmRemove m k).2

/-- In-place update of the block stored under a key (`get_mut` then write). -/
def hmSetBlock : List (Nat × List Value) → Nat → List Value → List (Nat × List Value)
  | [], _, _ => []
  | (k, v) :: rest, b, newv =>
    if k = b then (k, newv) :: rest else (k, v) :: hmSetBlock rest b newv

/-- `interp.rs` `Heap`. -/
structure Heap where
  memory : List (Nat × List Value)
  base_num_counter : Nat
deriving DecidableEq

/-- `Heap::default()`. -/
def Heap.defaultHeap : Heap := ⟨[], 0⟩

/-- `Heap::is_empty`. -/
def Heap.is_empty (h : Heap) : Bool := h.memory.isEmpty

/-- `Heap::alloc`. -/
def Heap.alloc (h : Heap) (amount : Int) : Heap × Except InterpError Value :=
  if amount < 0 then (h, .error (.cannotAllocSize amount))
  else
    let base := h.base_num_counter
    (⟨hmInsert h.memory base (List.replicate amount.toNat Value.defaultVal), base + 1⟩,
      .ok (.pointer ⟨base, 0⟩))

/-- `Heap::free`.  The source runs `self.memory.remove(&key.base)` first and
only then tests the offset, so the removal happens in the error branch too. -/
def Heap.free (h : Heap) (key : Pointer) : Heap × Except InterpError Unit :=
  let r := hmRemove h.memory key.base
  if r.1.isSome ∧ key.offset = 0 then (⟨r.2, h.base_num_counter⟩, .ok ())
  else (⟨r.2, h.base_num_counter⟩, .error (.illegalFree key.base key.offset))

/-- `Heap::write`. -/
def Heap.write (h : Heap) (key : Pointer) (val : Value) : Heap × Except InterpError Unit :=
  match hmLookup h.memory key.base with
  | some vec =>
    if i64ToUsize key.offset < vec.length ∧ 0 ≤ key.offset then
      (⟨hmSetBlock h.memory key.base (vec.set (i64ToUsize key.offset) val),
          h.base_num_counter⟩, .ok ())
    else (h, .error (.invalidMemoryAccess key.base key.offset))
  | none => (h, .error (.invalidMemoryAccess key.base key.offset))

/-- `Heap::read`. -/
def Heap.read (h : Heap) (key : Pointer) : Except InterpError Value :=
  match hmLookup h.memory key.base with
  | none => .error (.invalidMemoryAccess key.base key.offset)
  | some vec =>
    match vec.get? (i64ToUsize key.offset) with
    | none => .error (.invalidMemoryAccess key.base key.offset)
    | some .uninitialized => .error .usingUninitializedMemory
    | some v => .ok v

/-- `interp.rs` `Environment`.  `stack_pointers` is the `Vec` of saved
`(pointer, frame size)` pairs with the vector's end (its push/pop side) at
the head of the list. -/
structure Environment where
  current_pointer : Nat
  current_frame_size : Nat
  stack_pointers : List (Nat × Nat)
  env : List Value
deriving DecidableEq

/-- `Vec::resize(n, v)`: truncate or extend with copies of `v`. -/
def listResize (l : List Value) (n : Nat) (v : Value) : List Value :=
  if n ≤ l.length then l.take n else l ++ List.replicate (n - l.length) v

/-- `Environment::new`. -/
def Environment.new (size : Nat) : Environment :=
  ⟨0, size, [], List.replicate (max size 50) Value.defaultVal⟩

/-- `Environment::get`; the `unwrap` of an out-of-bounds index is `none`. -/
def Environment.get (e : Environment) (ident : Nat) : Option Value :=
  e.env.get? (e.current_pointer + ident)

/-- `Environment::get_from_last_frame`; `none` is the panic on an empty
saved stack or an out-of-bounds slot. -/
def Environment.get_from_last_frame (e : Environment) (ident : Nat) : Option Value :=
  match e.stack_pointers with
  | [] => none
  | (p, _) :: _ => e.env.get? (p + ident)

/-- `Environment::set`; `none` is the panic on an out-of-bounds index. -/
def Environment.set (e : Environment) (ident : Nat) (val : Value) : Option Environment :=
  if e.current_pointer + ident < e.env.length then
    some { e with env := e.env.set (e.current_pointer + ident) val }
  else none

/-- `Environment::push_frame`. -/
def Environment.push_frame (e : Environment) (size : Nat) : Environment :=
  let sp := (e.current_pointer, e.current_frame_size) :: e.stack_pointers
  let cp := e.current_pointer + e.current_frame_size
  let newEnv :=
    if cp + size > e.env.length then
      listResize e.env (max (e.env.length * 4) (cp + size)) Value.defaultVal
    else e.env
  ⟨cp, size, sp, newEnv⟩

/-- `Environment::pop_frame`; `none` is the panic on an empty saved stack. -/
def Environment.pop_frame (e : Environment) : Option Environment :=
  match e.stack_pointers with
  | [] => none
  | (p, s) :: rest => some ⟨p, s, rest, e.env⟩

/-- The abstract IEEE-754 binary64 operations the interpreter is parametric
over (floats are opaque bit patterns; see the file comment). -/
structure FloatOps where
  ofInt : Int → Nat
  fadd : Nat → Nat → Nat
  fsub : Nat → Nat → Nat
  fmul : Nat → Nat → Nat
  fdiv : Nat → Nat → Nat
  feq : Nat → Nat → Bool
  flt : Nat → Nat → Bool
  fgt : Nat → Nat → Bool
  fle : Nat → Nat → Bool
  fge : Nat → Nat → Bool
  render : Nat → String
  parse : String → Option Nat

/-- A trivial instantiation of `FloatOps`, used to instantiate theorems at
concrete inputs. -/
def FloatOps.trivialOps : FloatOps :=
  ⟨fun _ => 0, fun _ _ => 0, fun _ _ => 0, fun _ _ => 0, fun _ _ => 0,
    fun _ _ => false, fun _ _ => false, fun _ _ => false, fun _ _ => false,
    fun _ _ => false, fun _ => "", fun _ => none⟩

/-- `From<&Value> for i64` (`unreachable!` on other variants). -/
def Value.asInt : Value → Option Int
  | .int i => some i
  | _ => none

/-- `From<&Value> for bool`. -/
def Value.asBool : Value → Option Bool
  | .bool b => some b
  | _ => none

/-- `From<&Value> for f64`. -/
def Value.asFloat : Value → Option Nat
  | .float f => some f
  | _ => none

/-- `From<&Value> for &Pointer`. -/
def Value.asPointer : Value → Option Pointer
  | .pointer p => some p
  | _ => none

/-- `impl fmt::Display for Value`; `Uninitialized` is `unreachable!`. -/
def Value.display (FO : FloatOps) : Value → Option String
  | .int i => some (toString i)
  | .bool b => some (toString b)
  | .float f => some (FO.render f)
  | .pointer p =>
    some ("Pointer \x7b base: " ++ toString p.base ++ ", offset: " ++
      toString p.offset ++ " \x7d")
  | .uninitialized => none

/-- Modelled from the spec: `bril_rs::Literal`. -/
inductive Literal
  | int (i : Int)
  | bool (b : Bool)
  | float (bits : Nat)
deriving DecidableEq

/-- `From<bril_rs::Literal> for Value`. -/
def Value.ofLiteral : Literal → Value
  | .int i => .int i
  | .bool b => .bool b
  | .float f => .float f

/-- Modelled from the spec: `bril_rs::ValueOps`. -/
inductive ValueOps
  | add | mul | sub | div
  | eq | lt | gt | le | ge
  | not | and | or
  | id
  | fadd | fmul | fsub | fdiv
  | feq | flt | fgt | fle | fge
  | call | phi | alloc | load | ptradd
deriving DecidableEq

/-- Modelled from the spec: `bril_rs::EffectOps`. -/
inductive EffectOps
  | jump | branch | ret | print | nop | call | store | free
  | speculate | commit | guard
deriving DecidableEq

/-- Modelled from the spec: an instruction merged with its index-aligned
numified twin (`dest`, `args`, `funcs` are the dense indices; `labels` comes
from the original instruction). -/
inductive Instr
  | const (dest : Nat) (const_type : BrilType) (value : Literal) (pos : Option Position)
  | value (op : ValueOps) (dest : Nat) (args : List Nat) (labels : List String)
      (funcs : List Nat) (pos : Option Position)
  | effect (op : EffectOps) (args : List Nat) (funcs : List Nat) (pos : Option Position)
deriving DecidableEq

/-- Modelled from the spec: a basic block (label, instructions, successor
block indices). -/
structure BasicBlock where
  label : Option String
  instrs : List Instr
  exit : List Nat
deriving DecidableEq

/-- Modelled from the spec: `BBFunction` (argument types parallel to their
dense indices `args_as_nums`). -/
structure BBFunction where
  name : String
  args : List BrilType
  args_as_nums : List Nat
  return_type : Option BrilType
  blocks : List BasicBlock
  num_of_vars : Nat
  pos : Option Position
deriving DecidableEq

/-- Modelled from the spec: `BBProgram`. -/
structure BBProgram where
  funcs : List BBFunction
  index_of_main : Option Nat
deriving DecidableEq

/-- `BBProgram::get`. -/
def BBProgram.get (p : BBProgram) (i : Nat) : Option BBFunction := p.funcs.get? i

/-- `interp.rs` `State`.  `out` is the list of lines written to the output
sink (each written line had a newline appended and was flushed; the sink of
the model is infallible, so `IoError` does not arise).  `blocks_entered` is
ghost instrumentation (see the file comment). -/
structure State where
  env : Environment
  heap : Heap
  out : List String
  instruction_count : Nat
  blocks_entered : List Nat
deriving DecidableEq

/-- `get_value`. -/
def get_value (vars : Environment) (index : Nat) (args : List Nat) : Option Value :=
  (args.get? index).bind vars.get

/-- `get_arg::<i64>`. -/
def getIntArg (vars : Environment) (index : Nat) (args : List Nat) : Option Int :=
  (get_value vars index args).bind Value.asInt

/-- `get_arg::<bool>`. -/
def getBoolArg (vars : Environment) (index : Nat) (args : List Nat) : Option Bool :=
  (get_value vars index args).bind Value.asBool

/-- `get_arg::<f64>`. -/
def getFloatArg (vars : Environment) (index : Nat) (args : List Nat) : Option Nat :=
  (get_value vars index args).bind Value.asFloat

/-- `get_arg::<&Pointer>`. -/
def getPtrArg (vars : Environment) (index : Nat) (args : List Nat) : Option Pointer :=
  (get_value vars index args).bind Value.asPointer

/-- `Pointer::add` (plain `+` on the offsets, wrapping in release mode). -/
def Pointer.add (p : Pointer) (offset : Int) : Pointer :=
  ⟨p.base, wrap64 (p.offset + offset)⟩

/-- `Iterator::position` on a label list. -/
def listPosition (x : String) : List String → Option Nat
  | [] => none
  | l :: rest => if l = x then some 0 else (listPosition x rest).map (· + 1)

/-- The argument-marshalling loop of `make_func_args`. -/
def marshalArgs : Environment → List (Nat × Nat) → Option Environment
  | vars, [] => some vars
  | vars, (argName, expected) :: rest =>
    match vars.get_from_last_frame argName with
    | none => none
    | some arg =>
      match vars.set expected arg with
      | none => none
      | some vars2 => marshalArgs vars2 rest

/-- `make_func_args`. -/
def make_func_args (callee : BBFunction) (args : List Nat) (vars : Environment) :
    Option Environment :=
  marshalArgs (vars.push_frame callee.num_of_vars) (args.zip callee.args_as_nums)

/-- `state.env.set(dest, v)` inside dispatch; the panic on an out-of-bounds
destination is `fault`. -/
def setDest (st : State) (dest : Nat) (v : Value) : State × Except Failure Unit :=
  match st.env.set dest v with
  | none => (st, .error .fault)
  | some e => ({ st with env := e }, .ok ())

/-- The argument-rendering loop of the `Print` effect op. -/
def displayArgs (FO : FloatOps) (vars : Environment) : List Nat → Option (List String)
  | [] => some []
  | a :: rest =>
    match vars.get a with
    | none => none
    | some v =>
      match v.display FO with
      | none => none
      | some s => (displayArgs FO vars rest).map (s :: ·)

mutual

/-- The loop of `execute`: the walker over basic blocks.  `currentLabel` is
the label of the previously executed block (`None` on entry), rotated into
`last_label` at each block entry exactly as in the source. -/
def executeLoop (FO : FloatOps) (prog : BBProgram) (func : BBFunction) (fuel : Nat)
    (idx : Nat) (currentLabel : Option String) (st : State) :
    State × Except Failure (Option Value) :=
  match fuel with
  | 0 => (st, .error .outOfFuel)
  | fuel + 1 =>
    match func.blocks.get? idx with
    | none => (st, .error .fault)
    | some blk =>
      let st1 : State :=
        { st with
          instruction_count :=
            (st.instruction_count + blk.instrs.length % 2 ^ 32) % 2 ^ 32,
          blocks_entered := st.blocks_entered ++ [blk.instrs.length] }
      let nextDefault : Option Nat :=
        match blk.exit with
        | [e] => some e
        | _ => none
      match execInstrs FO fuel prog func blk currentLabel blk.instrs st1 nextDefault none with
      | (st2, .error f) => (st2, .error f)
      | (st2, .ok (next, res)) =>
        match next with
        | some idx2 => executeLoop FO prog func fuel idx2 blk.label st2
        | none => (st2, .ok res)
termination_by (fuel, 0, 0)

/-- The per-block instruction loop of `execute`: dispatch each instruction,
threading the `next_block_idx` cell and the `result` value. -/
def execInstrs (FO : FloatOps) (fuel : Nat) (prog : BBProgram) (func : BBFunction)
    (blk : BasicBlock) (lastLabel : Option String) (insts : List Instr) (st : State)
    (next : Option Nat) (res : Option Value) :
    State × Except Failure (Option Nat × Option Value) :=
  match insts with
  | [] => (st, .ok (next, res))
  | inst :: rest =>
    match inst with
    | .const dest constType lit _ =>
      if constType = .float then
        match lit with
        | .int i =>
          match setDest st dest (.float (FO.ofInt i)) with
          | (st2, .error f) => (st2, .error f)
          | (st2, .ok _) => execInstrs FO fuel prog func blk lastLabel rest st2 next res
        | .float f =>
          match setDest st dest (.float f) with
          | (st2, .error f2) => (st2, .error f2)
          | (st2, .ok _) => execInstrs FO fuel prog func blk lastLabel rest st2 next res
        | .bool _ => (st, .error .fault)
      else
        match setDest st dest (Value.ofLiteral lit) with
        | (st2, .error f) => (st2, .error f)
        | (st2, .ok _) => execInstrs FO fuel prog func blk lastLabel rest st2 next res
    | .value op dest args labels funcs pos =>
      match executeValueOp FO fuel prog op dest args labels funcs lastLabel st with
      | (st2, .error f) => (st2, .error (f.addPos pos))
      | (st2, .ok _) => execInstrs FO fuel prog func blk lastLabel rest st2 next res
    | .effect op args funcs pos =>
      match executeEffectOp FO fuel prog func op args funcs blk next st with
      | (st2, .error f) => (st2, .error (f.addPos pos))
      | (st2, .ok rn) => execInstrs FO fuel prog func blk lastLabel rest st2 rn.2 rn.1
termination_by (fuel, 1, insts.length)

/-- `execute_value_op`. -/
def executeValueOp (FO : FloatOps) (fuel : Nat) (prog : BBProgram) (op : ValueOps)
    (dest : Nat) (args : List Nat) (labels : List String) (funcs : List Nat)
    (lastLabel : Option String) (st : State) : State × Except Failure Unit :=
  match op with
  | .add =>
    match getIntArg st.env 0 args, getIntArg st.env 1 args with
    | some a0, some a1 => setDest st dest (.int (i64WrappingAdd a0 a1))
    | _, _ => (st, .error .fault)
  | .mul =>
    match getIntArg st.env 0 args, getIntArg st.env 1 args with
    | some a0, some a1 => setDest st dest (.int (i64WrappingMul a0 a1))
    | _, _ => (st, .error .fault)
  | .sub =>
    match getIntArg st.env 0 args, getIntArg st.env 1 args with
    | some a0, some a1 => setDest st dest (.int (i64WrappingSub a0 a1))
    | _, _ => (st, .error .fault)
  | .div =>
    match getIntArg st.env 0 args, getIntArg st.env 1 args with
    | some a0, some a1 =>
      match i64WrappingDiv a0 a1 with
      | none => (st, .error .fault)
      | some v => setDest st dest (.int v)
    | _, _ => (st, .error .fault)
  | .eq =>
    match getIntArg st.env 0 args, getIntArg st.env 1 args with
    | some a0, some a1 => setDest st dest (.bool (decide (a0 = a1)))
    | _, _ => (st, .error .fault)
  | .lt =>
    match getIntArg st.env 0 args, getIntArg st.env 1 args with
    | some a0, some a1 => setDest st dest (.bool (decide (a0 < a1)))
    | _, _ => (st, .error .fault)
  | .gt =>
    match getIntArg st.env 0 args, getIntArg st.env 1 args with
    | some a0, some a1 => setDest st dest (.bool (decide (a1 < a0)))
    | _, _ => (st, .error .fault)
  | .le =>
    match getIntArg st.env 0 args, getIntArg st.env 1 args with
    | some a0, some a1 => setDest st dest (.bool (decide (a0 ≤ a1)))
    | _, _ => (st, .error .fault)
  | .ge =>
    match getIntArg st.env 0 args, getIntArg st.env 1 args with
    | some a0, some a1 => setDest st dest (.bool (decide (a1 ≤ a0)))
    | _, _ => (st, .error .fault)
  | .not =>
    match getBoolArg st.env 0 args with
    | some b0 => setDest st dest (.bool (!b0))
    | none => (st, .error .fault)
  | .and =>
    match getBoolArg st.env 0 args, getBoolArg st.env 1 args with
    | some b0, some b1 => setDest st dest (.bool (b0 && b1))
    | _, _ => (st, .error .fault)
  | .or =>
    match getBoolArg st.env 0 args, getBoolArg st.env 1 args with
    | some b0, some b1 => setDest st dest (.bool (b0 || b1))
    | _, _ => (st, .error .fault)
  | .id =>
    match get_value st.env 0 args with
    | some src => setDest st dest src
    | none => (st, .error .fault)
  | .fadd =>
    match getFloatArg st.env 0 args, getFloatArg st.env 1 args with
    | some a0, some a1 => setDest st dest (.float (FO.fadd a0 a1))
    | _, _ => (st, .error .fault)
  | .fmul =>
    match getFloatArg st.env 0 args, getFloatArg st.env 1 args with
    | some a0, some a1 => setDest st dest (.float (FO.fmul a0 a1))
    | _, _ => (st, .error .fault)
  | .fsub =>
    match getFloatArg st.env 0 args, getFloatArg st.env 1 args with
    | some a0, some a1 => setDest st dest (.float (FO.fsub a0 a1))
    | _, _ => (st, .error .fault)
  | .fdiv =>
    match getFloatArg st.env 0 args, getFloatArg st.env 1 args with
    | some a0, some a1 => setDest st dest (.float (FO.fdiv a0 a1))
    | _, _ => (st, .error .fault)
  | .feq =>
    match getFloatArg st.env 0 args, getFloatArg st.env 1 args with
    | some a0, some a1 => setDest st dest (.bool (FO.feq a0 a1))
    | _, _ => (st, .error .fault)
  | .flt =>
    match getFloatArg st.env 0 args, getFloatArg st.env 1 args with
    | some a0, some a1 => setDest st dest (.bool (FO.flt a0 a1))
    | _, _ => (st, .error .fault)
  | .fgt =>
    match getFloatArg st.env 0 args, getFloatArg st.env 1 args with
    | some a0, some a1 => setDest st dest (.bool (FO.fgt a0 a1))
    | _, _ => (st, .error .fault)
  | .fle =>
    match getFloatArg st.env 0 args, getFloatArg st.env 1 args with
    | some a0, some a1 => setDest st dest (.bool (FO.fle a0 a1))
    | _, _ => (st, .error .fault)
  | .fge =>
    match getFloatArg st.env 0 args, getFloatArg st.env 1 args with
    | some a0, some a1 => setDest st dest (.bool (FO.fge a0 a1))
    | _, _ => (st, .error .fault)
  | .call =>
    match funcs.get? 0 with
    | none => (st, .error .fault)
    | some fIdx =>
      match prog.get fIdx with
      | none => (st, .error .fault)
      | some callee =>
        match make_func_args callee args st.env with
        | none => (st, .error .fault)
        | some env2 =>
          match executeLoop FO prog callee fuel 0 none { st with env := env2 } with
          | (st2, .error f) => (st2, .error f)
          | (st2, .ok ret) =>
            match ret with
            | none => (st2, .error .fault)
            | some v =>
              match st2.env.pop_frame with
              | none => (st2, .error .fault)
              | some env3 => setDest { st2 with env := env3 } dest v
  | .phi =>
    match lastLabel with
    | none => (st, .error (.interp .noLastLabel))
    | some ll =>
      match listPosition ll labels with
      | none => (st, .error (.interp (.phiMissingLabel ll)))
      | some i =>
        match get_value st.env i args with
        | none => (st, .error .fault)
        | some arg => setDest st dest arg
  | .alloc =>
    match getIntArg st.env 0 args with
    | none => (st, .error .fault)
    | some a0 =>
      match Heap.alloc st.heap a0 with
      | (h2, .error e) => ({ st with heap := h2 }, .error (.interp e))
      | (h2, .ok v) => setDest { st with heap := h2 } dest v
  | .load =>
    match getPtrArg st.env 0 args with
    | none => (st, .error .fault)
    | some p =>
      match Heap.read st.heap p with
      | .error e => (st, .error (.interp e))
      | .ok v => setDest st dest v
  | .ptradd =>
    match getPtrArg st.env 0 args, getIntArg st.env 1 args with
    | some p, some a1 => setDest st dest (.pointer (p.add a1))
    | _, _ => (st, .error .fault)
termination_by (fuel, 0, 1)

/-- `execute_effect_op`: returns the new `result` (always overwritten by the
caller, `Some` only for `Return` in a non-void function) and the new
`next_block_idx`. -/
def executeEffectOp (FO : FloatOps) (fuel : Nat) (prog : BBProgram) (func : BBFunction)
    (op : EffectOps) (args : List Nat) (funcs : List Nat) (blk : BasicBlock)
    (next : Option Nat) (st : State) :
    State × Except Failure (Option Value × Option Nat) :=
  match op with
  | .jump =>
    match blk.exit.get? 0 with
    | none => (st, .error .fault)
    | some e => (st, .ok (none, some e))
  | .branch =>
    match getBoolArg st.env 0 args with
    | none => (st, .error .fault)
    | some b =>
      match blk.exit.get? (if b then 0 else 1) with
      | none => (st, .error .fault)
      | some e => (st, .ok (none, some e))
  | .ret =>
    match func.return_type with
    | none => (st, .ok (none, next))
    | some _ =>
      match get_value st.env 0 args with
      | none => (st, .error .fault)
      | some v => (st, .ok (some v, next))
  | .print =>
    match displayArgs FO st.env args with
    | none => (st, .error .fault)
    | some parts =>
      ({ st with out := st.out ++ [String.intercalate " " parts] }, .ok (none, next))
  | .nop => (st, .ok (none, next))
  | .call =>
    match funcs.get? 0 with
    | none => (st, .error .fault)
    | some fIdx =>
      match prog.get fIdx with
      | none => (st, .error .fault)
      | some callee =>
        match make_func_args callee args st.env with
        | none => (st, .error .fault)
        | some env2 =>
          match executeLoop FO prog callee fuel 0 none { st with env := env2 } with
          | (st2, .error f) => (st2, .error f)
          | (st2, .ok _) =>
            match st2.env.pop_frame with
            | none => (st2, .error .fault)
            | some env3 => ({ st2 with env := env3 }, .ok (none, next))
  | .store =>
    match getPtrArg st.env 0 args, get_value st.env 1 args with
    | some p, some v =>
      match Heap.write st.heap p v with
      | (h2, .error e) => ({ st with heap := h2 }, .error (.interp e))
      | (h2, .ok _) => ({ st with heap := h2 }, .ok (none, next))
    | _, _ => (st, .error .fault)
  | .free =>
    match getPtrArg st.env 0 args with
    | none => (st, .error .fault)
    | some p =>
      match Heap.free st.heap p with
      | (h2, .error e) => ({ st with heap := h2 }, .error (.interp e))
      | (h2, .ok _) => ({ st with heap := h2 }, .ok (none, next))
  | .speculate => (st, .error .fault)
  | .commit => (st, .error .fault)
  | .guard => (st, .error .fault)
termination_by (fuel, 0, 1)

end

/-- The digit run of Rust's decimal integer parser: all characters must be
ASCII digits and there must be at least one. -/
def parseDigits (ds : List Char) : Option Nat :=
  if ds.isEmpty then none
  else if ds.all Char.isDigit then
    some (ds.foldl (fun acc c => acc * 10 + (c.toNat - 48)) 0)
  else none

/-- `str::parse::<i64>()`: an optional sign (`+` or `-`), then decimal
digits, the value fitting in signed 64 bits. -/
def parseI64 (s : String) : Option Int :=
  match s.data with
  | [] => none
  | c :: rest =>
    let signed : Int × List Char :=
      if c = '-' then (-1, rest) else if c = '+' then (1, rest) else (1, c :: rest)
    match parseDigits signed.2 with
    | none => none
    | some n =>
      let v := signed.1 * (n : Int)
      if -(2 ^ 63) ≤ v ∧ v ≤ 2 ^ 63 - 1 then some v else none

/-- `str::parse::<bool>()`: exactly the strings `true` and `false`. -/
def parseBool (s : String) : Option Bool :=
  if s = "true" then some true else if s = "false" then some false else none

/-- The scalar parser selected by a declared argument type: a derived view
of the three parsing arms of `parse_args`, used to state its contract
(`none` for a pointer type, whose arm is a panic, not a parse failure). -/
def parseScalar (FO : FloatOps) : BrilType → String → Option Value
  | .bool, raw => (parseBool raw).map .bool
  | .int, raw => (parseI64 raw).map .int
  | .float, raw => (FO.parse raw).map .float
  | .pointer _, _ => none

/-- The per-argument loop of `parse_args` (`try_for_each` over the
enumerated zip); `none` is a panic (missing input slot, out-of-bounds
destination, or the `unreachable!` on a pointer-typed entry argument). -/
def parseArgsLoop (FO : FloatOps) :
    Environment → List (BrilType × Nat) → Nat → List String →
    Option (Except InterpError Environment)
  | env, [], _, _ => some (.ok env)
  | env, (ty, argNum) :: rest, index, inputs =>
    match inputs.get? index with
    | none => none
    | some raw =>
      match ty with
      | .bool =>
        match parseBool raw with
        | none => some (.error (.badFuncArgType .bool raw))
        | some b =>
          match env.set argNum (.bool b) with
          | none => none
          | some env2 => parseArgsLoop FO env2 rest (index + 1) inputs
      | .int =>
        match parseI64 raw with
        | none => some (.error (.badFuncArgType .int raw))
        | some i =>
          match env.set argNum (.int i) with
          | none => none
          | some env2 => parseArgsLoop FO env2 rest (index + 1) inputs
      | .float =>
        match FO.parse raw with
        | none => some (.error (.badFuncArgType .float raw))
        | some f =>
          match env.set argNum (.float f) with
          | none => none
          | some env2 => parseArgsLoop FO env2 rest (index + 1) inputs
      | .pointer _ => none

/-- `parse_args`. -/
def parse_args (FO : FloatOps) (env : Environment) (args : List BrilType)
    (args_as_nums : List Nat) (inputs : List String) :
    Option (Except InterpError Environment) :=
  if args.isEmpty ∧ inputs.isEmpty then some (.ok env)
  else if inputs.length ≠ args.length then
    some (.error (.badNumFuncArgs args.length inputs.length))
  else parseArgsLoop FO env (args.zip args_as_nums) 0 inputs

/-- Everything `execute_main` makes observable: its return value, the lines
written to the output sink and to the profiling sink, and (for stating
post-conditions) the final heap, instruction counter and ghost block log —
`Heap::default()`, `0` and `[]` on the paths that never start execution. -/
structure MainResult where
  result : Except Failure Unit
  out : List String
  profile : List String
  heap : Heap
  icount : Nat
  blocks : List Nat

/-- The one line the profiling sink receives. -/
def profileLine (n : Nat) : String := "total_dyn_inst: " ++ toString n

/-- `execute_main`. -/
def executeMain (FO : FloatOps) (fuel : Nat) (prog : BBProgram)
    (input_args : List String) (profiling : Bool) : MainResult :=
  match prog.index_of_main with
  | none => ⟨.error (.positioned .noMainFunction none), [], [], Heap.defaultHeap, 0, []⟩
  | some mi =>
    match prog.get mi with
    | none => ⟨.error .fault, [], [], Heap.defaultHeap, 0, []⟩
    | some mainFunc =>
      if mainFunc.return_type.isSome then
        ⟨.error (.positioned (.nonEmptyRetForFunc mainFunc.name) mainFunc.pos), [], [],
          Heap.defaultHeap, 0, []⟩
      else
        match parse_args FO (Environment.new mainFunc.num_of_vars) mainFunc.args
            mainFunc.args_as_nums input_args with
        | none => ⟨.error .fault, [], [], Heap.defaultHeap, 0, []⟩
        | some (.error e) =>
          ⟨.error (Failure.addPos (.interp e) mainFunc.pos), [], [],
            Heap.defaultHeap, 0, []⟩
        | some (.ok env) =>
          match executeLoop FO prog mainFunc fuel 0 none ⟨env, Heap.defaultHeap, [], 0, []⟩ with
          | (st2, .error f) =>
            ⟨.error f, st2.out, [], st2.heap, st2.instruction_count, st2.blocks_entered⟩
          | (st2, .ok _) =>
            if st2.heap.is_empty then
              ⟨.ok (), st2.out,
                if profiling then [profileLine st2.instruction_count] else [],
                st2.heap, st2.instruction_count, st2.blocks_entered⟩
            else
              ⟨.error (Failure.addPos (.interp .memLeak) mainFunc.pos), st2.out, [],
                st2.heap, st2.instruction_count, st2.blocks_entered⟩

/-- A caller-visible operation on the `Environment`: writing a slot of the
current frame, pushing a frame, popping a frame. -/
inductive EnvOp
  | set (k : Nat) (v : Value)
  | push (n : Nat)
  | pop

/-- Apply one `EnvOp`; `none` is a panic. -/
def applyOp (e : Environment) : EnvOp → Option Environment
  | .set k v => e.set k v
  | .push n => some (e.push_frame n)
  | .pop => e.pop_frame

/-- Apply a sequence of environment operations, stopping at a panic. -/
def applyOps : List EnvOp → Environment → Option Environment
  | [], e => some e
  | op :: rest, e =>
    match applyOp e op with
    | none => none
    | some e2 => applyOps rest e2

/-- Operation sequences whose `push_frame`/`pop_frame` pairs match up (what
a well-nested sequence of calls performs between a matched push and pop). -/
inductive Balanced : List EnvOp → Prop
  | nil : Balanced []
  | set (k : Nat) (v : Value) (rest : List EnvOp) :
      Balanced rest → Balanced (.set k v :: rest)
  | frame (n : Nat) (inner rest : List EnvOp) : Balanced inner → Balanced rest →
      Balanced (.push n :: (inner ++ .pop :: rest))

/-- The environment's structural invariant: the current frame and every
saved frame fit inside the storage. -/
def EnvWF (e : Environment) : Prop :=
  e.current_pointer + e.current_frame_size ≤ e.env.length ∧
    ∀ ps ∈ e.stack_pointers, ps.1 + ps.2 ≤ e.env.length

/-- Distinctness of the heap's keys (guaranteed by the source's `FxHashMap`;
maintained here because the only insertions use the fresh counter). -/
def hmNodup (m : List (Nat × List Value)) : Prop := (m.map Prod.fst).Nodup

/-- The allocation counter's freshness invariant: every live key is below
the counter. -/
def HeapWF (h : Heap) : Prop :=
  ∀ k v, hmLookup h.memory k = some v → k < h.base_num_counter

/-- One step of the `u32` instruction counter: add a block's length, with
both the cast of the length and the addition wrapping at `2^32`. -/
def countStep (c l : Nat) : Nat := (c + l % 2 ^ 32) % 2 ^ 32

/-- Fold `countStep` over the lengths of a list of entered blocks. -/
def countFold (c : Nat) (ls : List Nat) : Nat := ls.foldl countStep c

/-- State `s2` extends state `s1` by entering the blocks logged in some `Δ`:
the ghost log grew by `Δ` and the `u32` counter advanced by `countStep` on
each entry.  Every interpreter function transforms the state this way. -/
def CountEvolves (s1 s2 : State) : Prop :=
  ∃ Δ, s2.blocks_entered = s1.blocks_entered ++ Δ ∧
    s2.instruction_count = countFold s1.instruction_count Δ

/-- The trivial float model, used to instantiate theorems concretely. -/
def FO0 : FloatOps := FloatOps.trivialOps

/-- Concrete heap for the `free` counterexample: one live handle `0` with a
one-cell block. -/
def cexFreeHeap : Heap := ⟨[(0, [Value.int 5])], 1⟩

/-- Concrete pointer with nonzero offset into `cexFreeHeap`. -/
def cexFreePtr : Pointer := ⟨0, 1⟩

/-- A function of one block holding `n` `nop`s. -/
def nopFunc (n : Nat) : BBFunction :=
  { name := "main", args := [], args_as_nums := [], return_type := none,
    blocks := [⟨none, List.replicate n (.effect .nop [] [] none), []⟩],
    num_of_vars := 0, pos := none }

/-- The program whose `main` is `nopFunc n`. -/
def nopProg (n : Nat) : BBProgram := ⟨[nopFunc n], some 0⟩

/-- A terminating program executing `2^32` dynamic instructions, enough to
wrap the `u32` instruction counter. -/
def hugeBlockProg : BBProgram := nopProg (2 ^ 32)

/-- A two-`nop` program, for instantiating the instruction-count theorem. -/
def twoNopProg : BBProgram := nopProg 2

/-- `main(n : int)` with an empty body, for the argument-parsing theorem. -/
def intArgFunc : BBFunction :=
  { name := "main", args := [.int], args_as_nums := [0], return_type := none,
    blocks := [⟨none, [], []⟩], num_of_vars := 1, pos := none }

/-- The program around `intArgFunc`. -/
def intArgProg : BBProgram := ⟨[intArgFunc], some 0⟩

/-- A program that allocates one cell, prints `1` and never frees: it
terminates normally with a live handle. -/
def leakFunc : BBFunction :=
  { name := "main", args := [], args_as_nums := [], return_type := none,
    blocks := [⟨none,
      [ .const 0 .int (.int 1) none,
        .value .alloc 1 [0] [] [] none,
        .effect .print [0] [] none ], []⟩],
    num_of_vars := 2, pos := none }

/-- The program around `leakFunc`. -/
def leakProg : BBProgram := ⟨[leakFunc], some 0⟩

/-- A tiny concrete environment: one frame of three slots holding
`5`, `3` and an uninitialized cell. -/
def witEnv : Environment :=
  ⟨0, 3, [], [Value.int 5, Value.int 3, Value.uninitialized]⟩

/-- The state around `witEnv`, for instantiating op-dispatch theorems. -/
def witState : State := ⟨witEnv, Heap.defaultHeap, [], 0, []⟩

/-- A state whose first slot holds a pointer and second an integer, for
instantiating the `PtrAdd` theorem. -/
def witPtrState : State :=
  ⟨⟨0, 3, [], [Value.pointer ⟨4, 10⟩, Value.int 2, Value.uninitialized]⟩,
    Heap.defaultHeap, [], 0, []⟩

theorem wrap64_range (z : Int) : -(2 ^ 63) ≤ wrap64 z ∧ wrap64 z < 2 ^ 63 := by
  unfold wrap64; omega

theorem wrap64_sub_self_emod (z : Int) : (wrap64 z - z) % 2 ^ 64 = 0 := by
  unfold wrap64; omega

theorem wrap64_congr (a b : Int) (h : (a - b) % 2 ^ 64 = 0) : wrap64 a = wrap64 b := by
  unfold wrap64; omega

theorem wrap64_eq_self (z : Int) (h1 : -(2 ^ 63) ≤ z) (h2 : z < 2 ^ 63) : wrap64 z = z := by
  unfold wrap64; omega

theorem lget_none_iff (l : List Value) (n : Nat) : l.get? n = none ↔ l.length ≤ n :=
  List.get?_eq_none

theorem hmRemove_lookup_none (m : List (Nat × List Value)) (b : Nat)
    (h : hmLookup m b = none) : (hmRemove m b).2 = m := by
  induction m with
  | nil => rfl
  | cons kv rest ih =>
    obtain ⟨k, v⟩ := kv
    by_cases hk : k = b
    · simp [hmLookup, hk] at h
    · have h2 : hmLookup rest b = none := by simpa [hmLookup, hk] using h
      simp [hmRemove, hk, ih h2]

theorem hmRemove_isSome_iff (m : List (Nat × List Value)) (b : Nat) :
    (hmRemove m b).1.isSome = true ↔ ∃ v, hmLookup m b = some v := by
  induction m with
  | nil => simp [hmRemove, hmLookup]
  | cons kv rest ih =>
    obtain ⟨k, v⟩ := kv
    by_cases hk : k = b
    · simp [hmRemove, hmLookup, hk]
    · simpa [hmRemove, hmLookup, hk] using ih

theorem hmRemove_length (m : List (Nat × List Value)) (b : Nat)
    (h : (hmRemove m b).1.isSome = true) : (hmRemove m b).2.length + 1 = m.length := by
  induction m with
  | nil => simp [hmRemove] at h
  | cons kv rest ih =>
    obtain ⟨k, v⟩ := kv
    by_cases hk : k = b
    · simp [hmRemove, hk]
    · have h2 : (hmRemove rest b).1.isSome = true := by simpa [hmRemove, hk] using h
      simp only [hmRemove, if_neg hk, List.length_cons]
      simpa using ih h2

theorem hmLookup_not_mem (m : List (Nat × List Value)) (b : Nat)
    (h : b ∉ m.map Prod.fst) : hmLookup m b = none := by
  induction m with
  | nil => rfl
  | cons kv rest ih =>
    obtain ⟨k, v⟩ := kv
    simp only [List.map_cons, List.mem_cons] at h
    push_neg at h
    have hkb : ¬ k = b := fun e => h.1 e.symm
    simp [hmLookup, hkb, ih h.2]

theorem hmLookup_remove_self (m : List (Nat × List Value)) (b : Nat)
    (h : hmNodup m) : hmLookup (hmRemove m b).2 b = none := by
  induction m with
  | nil => rfl
  | cons kv rest ih =>
    obtain ⟨k, v⟩ := kv
    unfold hmNodup at h
    simp only [List.map_cons, List.nodup_cons] at h
    by_cases hk : k = b
    · simp only [hmRemove, if_pos hk]
      exact hmLookup_not_mem rest b (hk ▸ h.1)
    · simp only [hmRemove, if_neg hk]
      simp only [hmLookup, if_neg hk]
      exact ih h.2

/-- C1 (amended). -/
theorem free_nonzero_offset_spec (h : Heap) (p : Pointer) (hoff : p.offset ≠ 0) :
    Heap.free h p =
      (⟨(hmRemove h.memory p.base).2, h.base_num_counter⟩,
        .error (.illegalFree p.base p.offset)) ∧
    (hmLookup h.memory p.base = none → (Heap.free h p).1 = h) ∧
    (hmNodup h.memory → hmLookup ((Heap.free h p).1).memory p.base = none) ∧
    (∀ v, hmLookup h.memory p.base = some v →
      ((Heap.free h p).1).memory.length + 1 = h.memory.length) := by
  have hfr : Heap.free h p =
      (⟨(hmRemove h.memory p.base).2, h.base_num_counter⟩,
        .error (.illegalFree p.base p.offset)) := by
    unfold Heap.free
    rw [if_neg]
    intro hc
    exact hoff hc.2
  refine ⟨hfr, ?_, ?_, ?_⟩
  · intro hnone
    rw [hfr]
    simp [hmRemove_lookup_none h.memory p.base hnone]
  · intro hnd
    rw [hfr]
    exact hmLookup_remove_self h.memory p.base hnd
  · intro v hv
    rw [hfr]
    refine hmRemove_length h.memory p.base ?_
    rw [hmRemove_isSome_iff]
    exact ⟨v, hv⟩

/-- C1 counterexample. -/
theorem free_claim_counterexample :
    (Heap.free cexFreeHeap cexFreePtr).2 = .error (.illegalFree 0 1) ∧
    (Heap.free cexFreeHeap cexFreePtr).1 ≠ cexFreeHeap ∧
    hmLookup ((Heap.free cexFreeHeap cexFreePtr).1).memory 0 = none :=
  ⟨rfl, by decide, rfl⟩

theorem free_nonzero_offset_spec_witness :
    Heap.free cexFreeHeap cexFreePtr = (⟨[], 1⟩, .error (.illegalFree 0 1)) ∧
    hmLookup ((Heap.free cexFreeHeap cexFreePtr).1).memory 0 = none := by
  have hs := free_nonzero_offset_spec cexFreeHeap cexFreePtr (by decide)
  exact ⟨hs.1, hs.2.2.1 (by simp [hmNodup, cexFreeHeap])⟩

theorem read_get_bound (vec : List Value) (off : Int) (h1 : -(2 ^ 63) ≤ off)
    (h2 : off < 2 ^ 63) (hlen : (vec.length : Int) < 2 ^ 63) :
    vec.get? (i64ToUsize off) = none ↔ (off < 0 ∨ (vec.length : Int) ≤ off) := by
  rw [lget_none_iff]
  unfold i64ToUsize
  omega

theorem heap_read_none (h : Heap) (p : Pointer)
    (hlk : hmLookup h.memory p.base = none) :
    Heap.read h p = .error (.invalidMemoryAccess p.base p.offset) := by
  unfold Heap.read
  rw [hlk]

theorem heap_read_oob (h : Heap) (p : Pointer) (vec : List Value)
    (hlk : hmLookup h.memory p.base = some vec)
    (hget : vec.get? (i64ToUsize p.offset) = none) :
    Heap.read h p = .error (.invalidMemoryAccess p.base p.offset) := by
  unfold Heap.read
  rw [hlk]
  show (match vec.get? (i64ToUsize p.offset) with
    | none => Except.error (InterpError.invalidMemoryAccess p.base p.offset)
    | some .uninitialized => Except.error InterpError.usingUninitializedMemory
    | some v => Except.ok v) = _
  rw [hget]

theorem heap_read_uninit (h : Heap) (p : Pointer) (vec : List Value)
    (hlk : hmLookup h.memory p.base = some vec)
    (hget : vec.get? (i64ToUsize p.offset) = some Value.uninitialized) :
    Heap.read h p = .error .usingUninitializedMemory := by
  unfold Heap.read
  rw [hlk]
  show (match vec.get? (i64ToUsize p.offset) with
    | none => Except.error (InterpError.invalidMemoryAccess p.base p.offset)
    | some .uninitialized => Except.error InterpError.usingUninitializedMemory
    | some v => Except.ok v) = _
  rw [hget]

theorem heap_read_ok (h : Heap) (p : Pointer) (vec : List Value) (v : Value)
    (hlk : hmLookup h.memory p.base = some vec)
    (hget : vec.get? (i64ToUsize p.offset) = some v)
    (hv : v ≠ .uninitialized) :
    Heap.read h p = .ok v := by
  unfold Heap.read
  rw [hlk]
  show (match vec.get? (i64ToUsize p.offset) with
    | none => Except.error (InterpError.invalidMemoryAccess p.base p.offset)
    | some .uninitialized => Except.error InterpError.usingUninitializedMemory
    | some v => Except.ok v) = _
  rw [hget]
  cases v with
  | uninitialized => exact absurd rfl hv
  | int i => rfl
  | bool b => rfl
  | float f => rfl
  | pointer q => rfl

/-- C2. -/
theorem heap_read_spec (h : Heap) (p : Pointer)
    (hoff1 : -(2 ^ 63) ≤ p.offset) (hoff2 : p.offset < 2 ^ 63)
    (hlen : ∀ vec, hmLookup h.memory p.base = some vec → (vec.length : Int) < 2 ^ 63) :
    (Heap.read h p = .error (.invalidMemoryAccess p.base p.offset) ↔
      hmLookup h.memory p.base = none ∨ p.offset < 0 ∨
        ∃ vec, hmLookup h.memory p.base = some vec ∧ (vec.length : Int) ≤ p.offset) ∧
    (∀ vec v, hmLookup h.memory p.base = some vec →
      vec.get? (i64ToUsize p.offset) = some v →
      (v = .uninitialized → Heap.read h p = .error .usingUninitializedMemory) ∧
      (v ≠ .uninitialized → Heap.read h p = .ok v)) := by
  constructor
  · constructor
    · intro hread
      rcases hlk : hmLookup h.memory p.base with _ | vec
      · exact Or.inl rfl
      · rcases hg : vec.get? (i64ToUsize p.offset) with _ | v
        · have hb := read_get_bound vec p.offset hoff1 hoff2 (hlen vec hlk)
          rcases hb.mp hg with hc | hc
          · exact Or.inr (Or.inl hc)
          · exact Or.inr (Or.inr ⟨vec, rfl, hc⟩)
        · exfalso
          by_cases hv : v = Value.uninitialized
          · rw [hv] at hg
            rw [heap_read_uninit h p vec hlk hg] at hread
            simp at hread
          · rw [heap_read_ok h p vec v hlk hg hv] at hread
            exact Except.noConfusion hread
    · intro hc
      rcases hc with hc | hc | ⟨vec, hlk, hlen2⟩
      · exact heap_read_none h p hc
      · rcases hlk : hmLookup h.memory p.base with _ | vec
        · exact heap_read_none h p hlk
        · exact heap_read_oob h p vec hlk
            ((read_get_bound vec p.offset hoff1 hoff2 (hlen vec hlk)).mpr (Or.inl hc))
      · exact heap_read_oob h p vec hlk
          ((read_get_bound vec p.offset hoff1 hoff2 (hlen vec hlk)).mpr (Or.inr hlen2))
  · intro vec v hlk hget
    constructor
    · intro hu
      subst hu
      exact heap_read_uninit h p vec hlk hget
    · intro hu
      exact heap_read_ok h p vec v hlk hget hu

theorem heap_read_spec_witness :
    (Heap.read cexFreeHeap ⟨0, 1⟩ = .error (.invalidMemoryAccess 0 1)) ∧
    (Heap.read cexFreeHeap ⟨0, 0⟩ = .ok (Value.int 5)) := by
  have h1 := heap_read_spec cexFreeHeap ⟨0, 1⟩ (by decide) (by decide)
    (by intro vec hv; simp [cexFreeHeap, hmLookup] at hv; subst hv; norm_num)
  have h0 := heap_read_spec cexFreeHeap ⟨0, 0⟩ (by decide) (by decide)
    (by intro vec hv; simp [cexFreeHeap, hmLookup] at hv; subst hv; norm_num)
  constructor
  · exact h1.1.mpr (Or.inr (Or.inr ⟨[Value.int 5], rfl, by decide⟩))
  · exact (h0.2 [Value.int 5] (Value.int 5) rfl rfl).2 (by decide)

theorem heap_write_miss (h : Heap) (p : Pointer) (v : Value) (vec : List Value)
    (hlk : hmLookup h.memory p.base = some vec)
    (hc : ¬(i64ToUsize p.offset < vec.length ∧ 0 ≤ p.offset)) :
    Heap.write h p v = (h, .error (.invalidMemoryAccess p.base p.offset)) := by
  unfold Heap.write
  rw [hlk]
  show (if i64ToUsize p.offset < vec.length ∧ 0 ≤ p.offset then
      ((⟨hmSetBlock h.memory p.base (vec.set (i64ToUsize p.offset) v),
          h.base_num_counter⟩ : Heap), Except.ok ())
    else (h, Except.error (InterpError.invalidMemoryAccess p.base p.offset))) = _
  rw [if_neg hc]

/-- C10: allocating zero cells succeeds with a fresh handle and offset 0. -/
theorem alloc_zero_spec (h : Heap) (hwf : HeapWF h) :
    Heap.alloc h 0 =
      (⟨(h.base_num_counter, []) :: h.memory, h.base_num_counter + 1⟩,
        .ok (.pointer ⟨h.base_num_counter, 0⟩)) ∧
    hmLookup h.memory h.base_num_counter = none ∧
    (∀ off : Int, Heap.read (Heap.alloc h 0).1 ⟨h.base_num_counter, off⟩ =
      .error (.invalidMemoryAccess h.base_num_counter off)) ∧
    (∀ (off : Int) (v : Value), Heap.write (Heap.alloc h 0).1 ⟨h.base_num_counter, off⟩ v =
      ((Heap.alloc h 0).1, .error (.invalidMemoryAccess h.base_num_counter off))) ∧
    (Heap.alloc h 0).1.is_empty = false ∧
    Heap.free (Heap.alloc h 0).1 ⟨h.base_num_counter, 0⟩ =
      (⟨h.memory, h.base_num_counter + 1⟩, .ok ()) ∧
    HeapWF (Heap.alloc h 0).1 := by
  have hfresh : hmLookup h.memory h.base_num_counter = none := by
    rcases hl : hmLookup h.memory h.base_num_counter with _ | v
    · rfl
    · exact absurd (hwf _ _ hl) (lt_irrefl _)
  have halloc : Heap.alloc h 0 =
      (⟨(h.base_num_counter, []) :: h.memory, h.base_num_counter + 1⟩,
        .ok (.pointer ⟨h.base_num_counter, 0⟩)) := by
    unfold Heap.alloc
    rw [if_neg (show ¬ (0 : Int) < 0 by omega)]
    show ((⟨hmInsert h.memory h.base_num_counter
        (List.replicate (Int.toNat 0) Value.defaultVal), h.base_num_counter + 1⟩ : Heap),
      Except.ok (Value.pointer ⟨h.base_num_counter, 0⟩)) = _
    unfold hmInsert
    rw [hmRemove_lookup_none h.memory h.base_num_counter hfresh]
    rfl
  have hlk1 : hmLookup ((Heap.alloc h 0).1).memory h.base_num_counter = some [] := by
    rw [halloc]
    simp [hmLookup]
  refine ⟨halloc, hfresh, ?_, ?_, ?_, ?_, ?_⟩
  · intro off
    exact heap_read_oob (Heap.alloc h 0).1 ⟨h.base_num_counter, off⟩ [] hlk1 rfl
  · intro off v
    refine heap_write_miss (Heap.alloc h 0).1 ⟨h.base_num_counter, off⟩ v [] hlk1 ?_
    intro hc
    simp at hc
  · rw [halloc]
    simp [Heap.is_empty]
  · rw [halloc]
    unfold Heap.free
    show (if (hmRemove ((h.base_num_counter, []) :: h.memory) h.base_num_counter).1.isSome ∧
        (Pointer.mk h.base_num_counter 0).offset = 0 then
        ((⟨(hmRemove ((h.base_num_counter, []) :: h.memory) h.base_num_counter).2,
            h.base_num_counter + 1⟩ : Heap), Except.ok ())
      else ((⟨(hmRemove ((h.base_num_counter, []) :: h.memory) h.base_num_counter).2,
            h.base_num_counter + 1⟩ : Heap),
        Except.error (InterpError.illegalFree (Pointer.mk h.base_num_counter 0).base
          (Pointer.mk h.base_num_counter 0).offset))) = _
    have hrem : hmRemove ((h.base_num_counter, []) :: h.memory) h.base_num_counter =
        (some [], h.memory) := by
      simp [hmRemove]
    rw [hrem]
    simp
  · have hmem : ((Heap.alloc h 0).1).memory = (h.base_num_counter, []) :: h.memory := by
      rw [halloc]
    have hbc : ((Heap.alloc h 0).1).base_num_counter = h.base_num_counter + 1 := by
      rw [halloc]
    intro k v hlk2
    rw [hmem] at hlk2
    rw [hbc]
    by_cases hck : h.base_num_counter = k
    · omega
    · simp only [hmLookup, if_neg hck] at hlk2
      have := hwf k v hlk2
      omega

theorem alloc_zero_spec_witness :
    Heap.alloc Heap.defaultHeap 0 = (⟨[(0, [])], 1⟩, .ok (.pointer ⟨0, 0⟩)) ∧
    Heap.read (Heap.alloc Heap.defaultHeap 0).1 ⟨0, 5⟩ =
      .error (.invalidMemoryAccess 0 5) ∧
    (Heap.alloc Heap.defaultHeap 0).1.is_empty = false ∧
    Heap.free (Heap.alloc Heap.defaultHeap 0).1 ⟨0, 0⟩ = (⟨[], 1⟩, .ok ()) := by
  have hs := alloc_zero_spec Heap.defaultHeap
    (by intro k v hl; simp [Heap.defaultHeap, hmLookup] at hl)
  exact ⟨hs.1, hs.2.2.1 5, hs.2.2.2.2.1, hs.2.2.2.2.2.1⟩

/-- C3: `Add`, `Sub` and `Mul` write exactly the two's-complement wrapping
sum, difference and product (a value in `[-2^63, 2^63)` congruent to the
exact result mod `2^64`); `Div` with a nonzero divisor writes the wrapping
truncated quotient, `i64::MIN / -1` gives `i64::MIN`, and division by zero
is a fault (a Rust panic, not an `InterpError`). -/
theorem int_arith_wrapping_spec (FO : FloatOps) (fuel : Nat) (prog : BBProgram)
    (dest : Nat) (args : List Nat) (labels : List String) (funcs : List Nat)
    (ll : Option String) (st : State) (x y : Int)
    (h0 : getIntArg st.env 0 args = some x)
    (h1 : getIntArg st.env 1 args = some y) :
    executeValueOp FO fuel prog .add dest args labels funcs ll st =
      setDest st dest (.int (i64WrappingAdd x y)) ∧
    executeValueOp FO fuel prog .sub dest args labels funcs ll st =
      setDest st dest (.int (i64WrappingSub x y)) ∧
    executeValueOp FO fuel prog .mul dest args labels funcs ll st =
      setDest st dest (.int (i64WrappingMul x y)) ∧
    (y ≠ 0 → executeValueOp FO fuel prog .div dest args labels funcs ll st =
      setDest st dest (.int (wrap64 (Int.tdiv x y)))) ∧
    (y = 0 → executeValueOp FO fuel prog .div dest args labels funcs ll st =
      (st, .error .fault)) ∧
    (-(2 ^ 63) ≤ i64WrappingAdd x y ∧ i64WrappingAdd x y < 2 ^ 63 ∧
      (i64WrappingAdd x y - (x + y)) % 2 ^ 64 = 0) ∧
    (-(2 ^ 63) ≤ i64WrappingSub x y ∧ i64WrappingSub x y < 2 ^ 63 ∧
      (i64WrappingSub x y - (x - y)) % 2 ^ 64 = 0) ∧
    (-(2 ^ 63) ≤ i64WrappingMul x y ∧ i64WrappingMul x y < 2 ^ 63 ∧
      (i64WrappingMul x y - x * y) % 2 ^ 64 = 0) ∧
    i64WrappingDiv (-(2 ^ 63)) (-1) = some (-(2 ^ 63)) := by
  refine ⟨?_, ?_, ?_, ?_, ?_, ?_, ?_, ?_, ?_⟩
  · simp only [executeValueOp, h0, h1]
  · simp only [executeValueOp, h0, h1]
  · simp only [executeValueOp, h0, h1]
  · intro hy
    simp only [executeValueOp, h0, h1, i64WrappingDiv, if_neg hy]
  · intro hy
    simp only [executeValueOp, h0, h1, i64WrappingDiv, if_pos hy]
  · exact ⟨(wrap64_range _).1, (wrap64_range _).2, wrap64_sub_self_emod _⟩
  · exact ⟨(wrap64_range _).1, (wrap64_range _).2, wrap64_sub_self_emod _⟩
  · exact ⟨(wrap64_range _).1, (wrap64_range _).2, wrap64_sub_self_emod _⟩
  · decide

theorem int_arith_wrapping_spec_witness :
    executeValueOp FO0 0 ⟨[], none⟩ .add 2 [0, 1] [] [] none witState =
      setDest witState 2 (.int 8) ∧
    executeValueOp FO0 0 ⟨[], none⟩ .sub 2 [0, 1] [] [] none witState =
      setDest witState 2 (.int 2) ∧
    executeValueOp FO0 0 ⟨[], none⟩ .div 2 [0, 1] [] [] none witState =
      setDest witState 2 (.int 1) := by
  have hs := int_arith_wrapping_spec FO0 0 ⟨[], none⟩ 2 [0, 1] [] [] none witState 5 3
    rfl rfl
  refine ⟨?_, ?_, ?_⟩
  · rw [hs.1]; rfl
  · rw [hs.2.1]; rfl
  · rw [hs.2.2.2.1 (by decide)]; rfl

/-- C4: pointer arithmetic is associative up to wrapping — adding `a` then
`b` equals adding the wrapped `a + b`, with the base unchanged, as `Value`s;
and the `PtrAdd` op succeeds and writes `p.add a` whatever the heap holds
(no bounds check at `PtrAdd` time). -/
theorem ptradd_algebra_spec (p : Pointer) (a b : Int) (FO : FloatOps) (fuel : Nat)
    (prog : BBProgram) (dest : Nat) (args : List Nat) (labels : List String)
    (funcs : List Nat) (ll : Option String) (st : State) (q : Pointer)
    (hp : getPtrArg st.env 0 args = some q)
    (ha : getIntArg st.env 1 args = some a) :
    Value.pointer ((p.add a).add b) = Value.pointer (p.add (i64WrappingAdd a b)) ∧
    ((p.add a).add b).base = p.base ∧
    (∀ h2 : Heap,
      executeValueOp FO fuel prog .ptradd dest args labels funcs ll
          { st with heap := h2 } =
        setDest { st with heap := h2 } dest (.pointer (q.add a))) := by
  refine ⟨?_, rfl, ?_⟩
  · have e1 := wrap64_sub_self_emod (p.offset + a)
    have e2 := wrap64_sub_self_emod (a + b)
    unfold Pointer.add i64WrappingAdd
    have : wrap64 (wrap64 (p.offset + a) + b) = wrap64 (p.offset + wrap64 (a + b)) := by
      apply wrap64_congr
      omega
    rw [this]
  · intro h2
    simp only [executeValueOp, hp, ha]

theorem ptradd_algebra_spec_witness :
    Value.pointer ((Pointer.add ⟨4, 10⟩ 2).add 3) =
      Value.pointer (Pointer.add ⟨4, 10⟩ (i64WrappingAdd 2 3)) ∧
    executeValueOp FO0 0 ⟨[], none⟩ .ptradd 2 [0, 1] [] [] none witPtrState =
      setDest witPtrState 2 (.pointer ⟨4, 12⟩) := by
  have hs := ptradd_algebra_spec ⟨4, 10⟩ 2 3 FO0 0 ⟨[], none⟩ 2 [0, 1] [] [] none
    witPtrState ⟨4, 10⟩ rfl rfl
  refine ⟨hs.1, ?_⟩
  have h3 := hs.2.2 Heap.defaultHeap
  rw [show ({ witPtrState with heap := Heap.defaultHeap } : State) = witPtrState from rfl]
    at h3
  rw [h3]
  rfl

theorem listPosition_some_iff (x : String) (l : List String) (i : Nat) :
    listPosition x l = some i ↔
      (l.get? i = some x ∧ ∀ j, j < i → l.get? j ≠ some x) := by
  induction l generalizing i with
  | nil => simp [listPosition]
  | cons a rest ih =>
    by_cases hax : a = x
    · subst hax
      cases i with
      | zero => simp [listPosition]
      | succ k =>
        simp only [listPosition, if_pos rfl]
        constructor
        · intro hc
          exact absurd hc (by simp)
        · intro hc
          exact absurd rfl (hc.2 0 (Nat.succ_pos k))
    · cases i with
      | zero =>
        simp only [listPosition, if_neg hax]
        constructor
        · intro hc
          rcases Option.map_eq_some'.mp hc with ⟨i2, _, hi2⟩
          omega
        · intro hc
          have : a = x := by
            have := hc.1
            simp only [List.get?_cons_zero] at this
            exact Option.some.inj this
          exact absurd this hax
      | succ k =>
        simp only [listPosition, if_neg hax]
        constructor
        · intro hc
          rcases Option.map_eq_some'.mp hc with ⟨i2, hi2, hik⟩
          obtain rfl : i2 = k := by omega
          rcases (ih i2).mp hi2 with ⟨hg, hall⟩
          refine ⟨by simpa using hg, ?_⟩
          intro j hj
          cases j with
          | zero =>
            simp only [List.get?_cons_zero]
            intro hcon
            exact hax (Option.some.inj hcon)
          | succ j2 =>
            simp only [List.get?_cons_succ]
            exact hall j2 (by omega)
        · intro hc
          have hrest : listPosition x rest = some k := by
            refine (ih k).mpr ⟨by simpa using hc.1, ?_⟩
            intro j hj
            have := hc.2 (j + 1) (by omega)
            simpa using this
          rw [hrest]
          rfl

theorem listPosition_none_iff (x : String) (l : List String) :
    listPosition x l = none ↔ x ∉ l := by
  induction l with
  | nil => simp [listPosition]
  | cons a rest ih =>
    by_cases hax : a = x
    · subst hax
      simp [listPosition]
    · simp only [listPosition, if_neg hax, Option.map_eq_none', ih, List.mem_cons]
      constructor
      · intro hc h2
        rcases h2 with h2 | h2
        · exact hax h2.symm
        · exact hc h2
      · intro hc h2
        exact hc (Or.inr h2)

/-- C5: a `Phi` with no previous label fails with `NoLastLabel`; otherwise
it copies the argument at the first position whose label equals the previous
label, failing with `PhiMissingLabel` when there is none; `listPosition` is
exactly that first position (hence the selection is a function of
`(last_label, labels, args)` alone). -/
theorem phi_spec (FO : FloatOps) (fuel : Nat) (prog : BBProgram) (dest : Nat)
    (args : List Nat) (labels : List String) (funcs : List Nat) (st : State) :
    (executeValueOp FO fuel prog .phi dest args labels funcs none st =
      (st, .error (.interp .noLastLabel))) ∧
    (∀ ll i v, listPosition ll labels = some i →
      get_value st.env i args = some v →
      executeValueOp FO fuel prog .phi dest args labels funcs (some ll) st =
        setDest st dest v) ∧
    (∀ ll, listPosition ll labels = none →
      executeValueOp FO fuel prog .phi dest args labels funcs (some ll) st =
        (st, .error (.interp (.phiMissingLabel ll)))) ∧
    (∀ ll i, listPosition ll labels = some i ↔
      (labels.get? i = some ll ∧ ∀ j, j < i → labels.get? j ≠ some ll)) ∧
    (∀ ll, listPosition ll labels = none ↔ ll ∉ labels) := by
  refine ⟨?_, ?_, ?_, ?_, ?_⟩
  · simp only [executeValueOp]
  · intro ll i v hpos hget
    simp only [executeValueOp, hpos, hget]
  · intro ll hpos
    simp only [executeValueOp, hpos]
  · intro ll i
    exact listPosition_some_iff ll labels i
  · intro ll
    exact listPosition_none_iff ll labels

theorem phi_spec_witness :
    executeValueOp FO0 0 ⟨[], none⟩ .phi 2 [0, 1] ["a", "b"] [] none witState =
      (witState, .error (.interp .noLastLabel)) ∧
    executeValueOp FO0 0 ⟨[], none⟩ .phi 2 [0, 1] ["a", "b"] [] (some "b") witState =
      setDest witState 2 (.int 3) ∧
    executeValueOp FO0 0 ⟨[], none⟩ .phi 2 [0, 1] ["a", "b"] [] (some "z") witState =
      (witState, .error (.interp (.phiMissingLabel "z"))) := by
  have hs := phi_spec FO0 0 ⟨[], none⟩ 2 [0, 1] ["a", "b"] [] witState
  refine ⟨hs.1, ?_, ?_⟩
  · exact hs.2.1 "b" 1 (.int 3) rfl rfl
  · exact hs.2.2.1 "z" rfl

theorem lget_set_ne (l : List Value) (j i : Nat) (v : Value) (h : i ≠ j) :
    (l.set j v).get? i = l.get? i := by
  induction l generalizing i j with
  | nil => rfl
  | cons a rest ih =>
    cases j with
    | zero =>
      cases i with
      | zero => exact absurd rfl h
      | succ i2 => rfl
    | succ j2 =>
      cases i with
      | zero => rfl
      | succ i2 => exact ih j2 i2 (by omega)

theorem lget_append_left (l r : List Value) (i : Nat) (h : i < l.length) :
    (l ++ r).get? i = l.get? i := by
  induction l generalizing i with
  | nil => simp at h
  | cons a rest ih =>
    cases i with
    | zero => rfl
    | succ i2 => exact ih i2 (by simpa using h)

theorem listResize_length (l : List Value) (n : Nat) (v : Value) :
    (listResize l n v).length = n := by
  unfold listResize
  by_cases h : n ≤ l.length
  · simp [h]
  · simp [h]
    omega

theorem listResize_get_lt (l : List Value) (n : Nat) (v : Value) (i : Nat)
    (hi : i < l.length) (hn : l.length ≤ n) :
    (listResize l n v).get? i = l.get? i := by
  unfold listResize
  by_cases h : n ≤ l.length
  · have : n = l.length := by omega
    subst this
    simp
  · rw [if_neg h]
    exact lget_append_left l _ i hi

theorem env_set_spec (e : Environment) (k : Nat) (v : Value) (e1 : Environment)
    (h : e.set k v = some e1) :
    e1.current_pointer = e.current_pointer ∧
    e1.current_frame_size = e.current_frame_size ∧
    e1.stack_pointers = e.stack_pointers ∧
    e1.env.length = e.env.length ∧
    ∀ i, i < e.current_pointer → e1.env.get? i = e.env.get? i := by
  unfold Environment.set at h
  by_cases hc : e.current_pointer + k < e.env.length
  · rw [if_pos hc] at h
    obtain rfl := Option.some.inj h
    refine ⟨rfl, rfl, rfl, by simp, ?_⟩
    intro i hi
    exact lget_set_ne _ _ _ _ (by omega)
  · rw [if_neg hc] at h
    exact Option.noConfusion h

theorem env_push_env_eq (e : Environment) (n : Nat) :
    (e.push_frame n).env =
      (if e.current_pointer + e.current_frame_size + n > e.env.length then
        listResize e.env
          (max (e.env.length * 4) (e.current_pointer + e.current_frame_size + n))
          Value.defaultVal
      else e.env) := rfl

theorem env_push_spec (e : Environment) (n : Nat) :
    (e.push_frame n).current_pointer = e.current_pointer + e.current_frame_size ∧
    (e.push_frame n).current_frame_size = n ∧
    (e.push_frame n).stack_pointers =
      (e.current_pointer, e.current_frame_size) :: e.stack_pointers ∧
    e.env.length ≤ (e.push_frame n).env.length ∧
    e.current_pointer + e.current_frame_size + n ≤ (e.push_frame n).env.length ∧
    (∀ i, i < e.env.length → (e.push_frame n).env.get? i = e.env.get? i) := by
  refine ⟨rfl, rfl, rfl, ?_, ?_, ?_⟩
  · rw [env_push_env_eq]
    by_cases hg : e.current_pointer + e.current_frame_size + n > e.env.length
    · rw [if_pos hg, listResize_length]
      omega
    · rw [if_neg hg]
  · rw [env_push_env_eq]
    by_cases hg : e.current_pointer + e.current_frame_size + n > e.env.length
    · rw [if_pos hg, listResize_length]
      omega
    · rw [if_neg hg]
      omega
  · intro i hi
    rw [env_push_env_eq]
    by_cases hg : e.current_pointer + e.current_frame_size + n > e.env.length
    · rw [if_pos hg]
      exact listResize_get_lt _ _ _ i hi (by omega)
    · rw [if_neg hg]

theorem env_pop_eq (e : Environment) (p s : Nat) (rest : List (Nat × Nat))
    (h : e.stack_pointers = (p, s) :: rest) :
    e.pop_frame = some ⟨p, s, rest, e.env⟩ := by
  unfold Environment.pop_frame
  rw [h]

theorem env_wf_push (e : Environment) (n : Nat) (hwf : EnvWF e) :
    EnvWF (e.push_frame n) := by
  obtain ⟨hp1, hp2, hp3, hp4, hp5, _⟩ := env_push_spec e n
  constructor
  · rw [hp1, hp2]
    omega
  · intro ps hps
    rw [hp3] at hps
    rcases List.mem_cons.mp hps with rfl | hps
    · show e.current_pointer + e.current_frame_size ≤ _
      have := hwf.1
      omega
    · have := hwf.2 ps hps
      omega

theorem env_wf_pop (e e2 : Environment) (hwf : EnvWF e) (h : e.pop_frame = some e2) :
    EnvWF e2 := by
  unfold Environment.pop_frame at h
  rcases hst : e.stack_pointers with _ | ⟨⟨p, s⟩, rest⟩
  · rw [hst] at h
    exact Option.noConfusion h
  · rw [hst] at h
    obtain rfl := Option.some.inj h
    have hhead : p + s ≤ e.env.length := by
      have := hwf.2 (p, s) (by rw [hst]; exact List.mem_cons_self _ _)
      exact this
    constructor
    · exact hhead
    · intro ps hps
      exact hwf.2 ps (by rw [hst]; exact List.mem_cons_of_mem _ hps)

theorem env_wf_set (e : Environment) (k : Nat) (v : Value) (e1 : Environment)
    (hwf : EnvWF e) (h : e.set k v = some e1) : EnvWF e1 := by
  obtain ⟨h1, h2, h3, h4, _⟩ := env_set_spec e k v e1 h
  constructor
  · rw [h1, h2, h4]
    exact hwf.1
  · intro ps hps
    rw [h3] at hps
    rw [h4]
    exact hwf.2 ps hps

theorem applyOps_cons (op : EnvOp) (rest : List EnvOp) (e : Environment) :
    applyOps (op :: rest) e =
      (match applyOp e op with
        | none => none
        | some e1 => applyOps rest e1) := rfl

theorem applyOps_append (l1 l2 : List EnvOp) (e : Environment) :
    applyOps (l1 ++ l2) e =
      (match applyOps l1 e with
        | none => none
        | some e1 => applyOps l2 e1) := by
  induction l1 generalizing e with
  | nil => rfl
  | cons op rest ih =>
    rw [List.cons_append, applyOps_cons, applyOps_cons]
    cases applyOp e op with
    | none => rfl
    | some e1 => exact ih e1

theorem balanced_apply (ops : List EnvOp) (hbal : Balanced ops) :
    ∀ e e2, applyOps ops e = some e2 →
      e2.current_pointer = e.current_pointer ∧
      e2.current_frame_size = e.current_frame_size ∧
      e2.stack_pointers = e.stack_pointers ∧
      e.env.length ≤ e2.env.length ∧
      (∀ i, i < e.current_pointer → i < e.env.length →
        e2.env.get? i = e.env.get? i) ∧
      (EnvWF e → EnvWF e2) := by
  induction hbal with
  | nil =>
    intro e e2 h
    obtain rfl := Option.some.inj h
    exact ⟨rfl, rfl, rfl, le_refl _, fun i _ _ => rfl, fun hwf => hwf⟩
  | set k v rest _ ih =>
    intro e e2 h
    rw [applyOps_cons] at h
    rcases hset : applyOp e (EnvOp.set k v) with _ | e1
    · rw [hset] at h
      exact Option.noConfusion h
    · rw [hset] at h
      have hset2 : e.set k v = some e1 := hset
      obtain ⟨s1, s2, s3, s4, s5⟩ := env_set_spec e k v e1 hset2
      obtain ⟨r1, r2, r3, r4, r5, r6⟩ := ih e1 e2 h
      refine ⟨by rw [r1, s1], by rw [r2, s2], by rw [r3, s3], by omega, ?_, ?_⟩
      · intro i hi hilen
        rw [r5 i (by omega) (by omega), s5 i hi]
      · intro hwf
        exact r6 (env_wf_set e k v e1 hwf hset2)
  | frame n inner rest _ _ ih_inner ih_rest =>
    intro e e2 h
    rw [applyOps_cons] at h
    have h2 : applyOps (inner ++ EnvOp.pop :: rest) (e.push_frame n) = some e2 := h
    rw [applyOps_append] at h2
    rcases hmid : applyOps inner (e.push_frame n) with _ | emid
    · rw [hmid] at h2
      exact Option.noConfusion h2
    · rw [hmid] at h2
      have h3 : applyOps (EnvOp.pop :: rest) emid = some e2 := h2
      rw [applyOps_cons] at h3
      obtain ⟨p1, p2, p3, p4, p5, p6⟩ := env_push_spec e n
      obtain ⟨m1, m2, m3, m4, m5, m6⟩ := ih_inner (e.push_frame n) emid hmid
      have hstmid : emid.stack_pointers =
          (e.current_pointer, e.current_frame_size) :: e.stack_pointers := by
        rw [m3, p3]
      have hpop : emid.pop_frame =
          some ⟨e.current_pointer, e.current_frame_size, e.stack_pointers, emid.env⟩ :=
        env_pop_eq emid _ _ _ hstmid
      rw [show applyOp emid EnvOp.pop = emid.pop_frame from rfl, hpop] at h3
      have h4 : applyOps rest
          (⟨e.current_pointer, e.current_frame_size, e.stack_pointers, emid.env⟩ :
            Environment) = some e2 := h3
      obtain ⟨r1, r2, r3, r4, r5, r6⟩ := ih_rest _ e2 h4
      have r1b : e2.current_pointer = e.current_pointer := r1
      have r2b : e2.current_frame_size = e.current_frame_size := r2
      have r3b : e2.stack_pointers = e.stack_pointers := r3
      have r4b : emid.env.length ≤ e2.env.length := r4
      have r5b : ∀ i, i < e.current_pointer → i < emid.env.length →
          e2.env.get? i = emid.env.get? i := r5
      have r6b : EnvWF (⟨e.current_pointer, e.current_frame_size, e.stack_pointers,
          emid.env⟩ : Environment) → EnvWF e2 := r6
      refine ⟨r1b, r2b, r3b, by omega, ?_, ?_⟩
      · intro i hi hilen
        have hA : (e.push_frame n).env.get? i = e.env.get? i := p6 i hilen
        have hB : emid.env.get? i = (e.push_frame n).env.get? i := by
          refine m5 i ?_ ?_
          · rw [p1]
            omega
          · omega
        have hC : e2.env.get? i = emid.env.get? i := by
          refine r5b i hi ?_
          omega
        rw [hC, hB, hA]
      · intro hwf
        have hwfmid : EnvWF emid := m6 (env_wf_push e n hwf)
        exact r6b (env_wf_pop emid _ hwfmid hpop)

/-- C9: a matched `push_frame`/`pop_frame` pair around any balanced sequence
of operations restores the saved `(pointer, frame size)`, leaves every slot
of the restored frame exactly as it was before the push, and keeps
`current_pointer + current_frame_size ≤ len(storage)` after the push and
after the pop. -/
theorem frame_isolation_spec (e : Environment) (n : Nat) (inner : List EnvOp)
    (hbal : Balanced inner) (e1 : Environment) (hwf : EnvWF e)
    (happ : applyOps inner (e.push_frame n) = some e1) :
    (e.push_frame n).current_pointer + (e.push_frame n).current_frame_size ≤
      (e.push_frame n).env.length ∧
    ∃ e2, e1.pop_frame = some e2 ∧
      e2.current_pointer = e.current_pointer ∧
      e2.current_frame_size = e.current_frame_size ∧
      e2.stack_pointers = e.stack_pointers ∧
      EnvWF e2 ∧
      e2.current_pointer + e2.current_frame_size ≤ e2.env.length ∧
      (∀ i, i < e.current_pointer + e.current_frame_size →
        e2.env.get? i = e.env.get? i) := by
  obtain ⟨p1, p2, p3, p4, p5, p6⟩ := env_push_spec e n
  obtain ⟨m1, m2, m3, m4, m5, m6⟩ := balanced_apply inner hbal (e.push_frame n) e1 happ
  have hst1 : e1.stack_pointers =
      (e.current_pointer, e.current_frame_size) :: e.stack_pointers := by
    rw [m3, p3]
  have hpop : e1.pop_frame =
      some ⟨e.current_pointer, e.current_frame_size, e.stack_pointers, e1.env⟩ :=
    env_pop_eq e1 _ _ _ hst1
  have hwf1 : EnvWF e1 := m6 (env_wf_push e n hwf)
  have hwf2 : EnvWF (⟨e.current_pointer, e.current_frame_size, e.stack_pointers,
      e1.env⟩ : Environment) := env_wf_pop e1 _ hwf1 hpop
  refine ⟨by rw [p1, p2]; omega, ⟨_, hpop, rfl, rfl, rfl, hwf2, hwf2.1, ?_⟩⟩
  intro i hi
  show e1.env.get? i = e.env.get? i
  have hilen : i < e.env.length := by
    have := hwf.1
    omega
  have hA : (e.push_frame n).env.get? i = e.env.get? i := p6 i hilen
  have hB : e1.env.get? i = (e.push_frame n).env.get? i := by
    refine m5 i ?_ ?_
    · rw [p1]
      omega
    · omega
  rw [hB, hA]

theorem frame_isolation_spec_witness :
    ∃ e1 e2,
      applyOps [EnvOp.set 0 (Value.int 7)] ((Environment.new 2).push_frame 1) =
        some e1 ∧
      e1.pop_frame = some e2 ∧
      e2.current_pointer = 0 ∧ e2.current_frame_size = 2 ∧
      e2.env.get? 0 = some Value.uninitialized ∧
      e2.env.get? 1 = some Value.uninitialized := by
  have hwf : EnvWF (Environment.new 2) := by
    refine ⟨by decide, ?_⟩
    intro ps hps
    simp [Environment.new] at hps
  have hs := frame_isolation_spec (Environment.new 2) 1 [EnvOp.set 0 (Value.int 7)]
    (Balanced.set 0 (Value.int 7) [] Balanced.nil) _ hwf rfl
  obtain ⟨_, e2, hpop, hcp, hcfs, _, _, _, hpre⟩ := hs
  refine ⟨_, e2, rfl, hpop, hcp, hcfs, ?_, ?_⟩
  · rw [hpre 0 (by decide)]
    rfl
  · rw [hpre 1 (by decide)]
    rfl

theorem countFold_append (c : Nat) (l1 l2 : List Nat) :
    countFold c (l1 ++ l2) = countFold (countFold c l1) l2 := by
  unfold countFold
  exact List.foldl_append _ _ _ _

theorem ce_refl (s : State) : CountEvolves s s :=
  ⟨[], by simp, rfl⟩

theorem ce_trans {a b c : State} (h1 : CountEvolves a b) (h2 : CountEvolves b c) :
    CountEvolves a c := by
  obtain ⟨d1, hb1, hc1⟩ := h1
  obtain ⟨d2, hb2, hc2⟩ := h2
  refine ⟨d1 ++ d2, ?_, ?_⟩
  · rw [hb2, hb1, List.append_assoc]
  · rw [hc2, hc1, countFold_append]

theorem ce_of_parts {s1 s2 : State} (hb : s2.blocks_entered = s1.blocks_entered)
    (hc : s2.instruction_count = s1.instruction_count) : CountEvolves s1 s2 :=
  ⟨[], by simp [hb], hc⟩

theorem ce_entry (s : State) (l : Nat) :
    CountEvolves s
      { s with
        instruction_count := (s.instruction_count + l % 2 ^ 32) % 2 ^ 32,
        blocks_entered := s.blocks_entered ++ [l] } :=
  ⟨[l], rfl, rfl⟩

theorem ce_setDest (st : State) (dest : Nat) (v : Value) :
    CountEvolves st (setDest st dest v).1 := by
  unfold setDest
  cases st.env.set dest v with
  | none => exact ce_refl st
  | some e => exact ce_of_parts rfl rfl

theorem ce_setDest_from {st st2 : State} (dest : Nat) (v : Value)
    (h : CountEvolves st st2) : CountEvolves st (setDest st2 dest v).1 :=
  ce_trans h (ce_setDest st2 dest v)

theorem vop_ce (FO : FloatOps) (prog : BBProgram) (fuel : Nat)
    (hloop : ∀ func idx lbl st,
      CountEvolves st ((executeLoop FO prog func fuel idx lbl st).1)) :
    ∀ op dest args labels funcs ll st,
      CountEvolves st ((executeValueOp FO fuel prog op dest args labels funcs ll st).1) := by
  intro op dest args labels funcs ll st
  cases op with
  | add =>
    rcases h0 : getIntArg st.env 0 args with _ | a0 <;>
      rcases h1 : getIntArg st.env 1 args with _ | a1 <;>
      simp only [executeValueOp, h0, h1] <;>
      first
        | exact ce_refl st
        | exact ce_setDest st dest _
  | mul =>
    rcases h0 : getIntArg st.env 0 args with _ | a0 <;>
      rcases h1 : getIntArg st.env 1 args with _ | a1 <;>
      simp only [executeValueOp, h0, h1] <;>
      first
        | exact ce_refl st
        | exact ce_setDest st dest _
  | sub =>
    rcases h0 : getIntArg st.env 0 args with _ | a0 <;>
      rcases h1 : getIntArg st.env 1 args with _ | a1 <;>
      simp only [executeValueOp, h0, h1] <;>
      first
        | exact ce_refl st
        | exact ce_setDest st dest _
  | div =>
    rcases h0 : getIntArg st.env 0 args with _ | a0 <;>
      rcases h1 : getIntArg st.env 1 args with _ | a1 <;>
      simp only [executeValueOp, h0, h1]
    · exact ce_refl st
    · exact ce_refl st
    · exact ce_refl st
    · rcases h2 : i64WrappingDiv a0 a1 with _ | v <;> simp only [h2] <;>
        first
          | exact ce_refl st
          | exact ce_setDest st dest _
  | eq =>
    rcases h0 : getIntArg st.env 0 args with _ | a0 <;>
      rcases h1 : getIntArg st.env 1 args with _ | a1 <;>
      simp only [executeValueOp, h0, h1] <;>
      first
        | exact ce_refl st
        | exact ce_setDest st dest _
  | lt =>
    rcases h0 : getIntArg st.env 0 args with _ | a0 <;>
      rcases h1 : getIntArg st.env 1 args with _ | a1 <;>
      simp only [executeValueOp, h0, h1] <;>
      first
        | exact ce_refl st
        | exact ce_setDest st dest _
  | gt =>
    rcases h0 : getIntArg st.env 0 args with _ | a0 <;>
      rcases h1 : getIntArg st.env 1 args with _ | a1 <;>
      simp only [executeValueOp, h0, h1] <;>
      first
        | exact ce_refl st
        | exact ce_setDest st dest _
  | le =>
    rcases h0 : getIntArg st.env 0 args with _ | a0 <;>
      rcases h1 : getIntArg st.env 1 args with _ | a1 <;>
      simp only [executeValueOp, h0, h1] <;>
      first
        | exact ce_refl st
        | exact ce_setDest st dest _
  | ge =>
    rcases h0 : getIntArg st.env 0 args with _ | a0 <;>
      rcases h1 : getIntArg st.env 1 args with _ | a1 <;>
      simp only [executeValueOp, h0, h1] <;>
      first
        | exact ce_refl st
        | exact ce_setDest st dest _
  | not =>
    rcases h0 : getBoolArg st.env 0 args with _ | b0 <;>
      simp only [executeValueOp, h0] <;>
      first
        | exact ce_refl st
        | exact ce_setDest st dest _
  | and =>
    rcases h0 : getBoolArg st.env 0 args with _ | b0 <;>
      rcases h1 : getBoolArg st.env 1 args with _ | b1 <;>
      simp only [executeValueOp, h0, h1] <;>
      first
        | exact ce_refl st
        | exact ce_setDest st dest _
  | or =>
    rcases h0 : getBoolArg st.env 0 args with _ | b0 <;>
      rcases h1 : getBoolArg st.env 1 args with _ | b1 <;>
      simp only [executeValueOp, h0, h1] <;>
      first
        | exact ce_refl st
        | exact ce_setDest st dest _
  | id =>
    rcases h0 : get_value st.env 0 args with _ | src <;>
      simp only [executeValueOp, h0] <;>
      first
        | exact ce_refl st
        | exact ce_setDest st dest _
  | fadd =>
    rcases h0 : getFloatArg st.env 0 args with _ | a0 <;>
      rcases h1 : getFloatArg st.env 1 args with _ | a1 <;>
      simp only [executeValueOp, h0, h1] <;>
      first
        | exact ce_refl st
        | exact ce_setDest st dest _
  | fmul =>
    rcases h0 : getFloatArg st.env 0 args with _ | a0 <;>
      rcases h1 : getFloatArg st.env 1 args with _ | a1 <;>
      simp only [executeValueOp, h0, h1] <;>
      first
        | exact ce_refl st
        | exact ce_setDest st dest _
  | fsub =>
    rcases h0 : getFloatArg st.env 0 args with _ | a0 <;>
      rcases h1 : getFloatArg st.env 1 args with _ | a1 <;>
      simp only [executeValueOp, h0, h1] <;>
      first
        | exact ce_refl st
        | exact ce_setDest st dest _
  | fdiv =>
    rcases h0 : getFloatArg st.env 0 args with _ | a0 <;>
      rcases h1 : getFloatArg st.env 1 args with _ | a1 <;>
      simp only [executeValueOp, h0, h1] <;>
      first
        | exact ce_refl st
        | exact ce_setDest st dest _
  | feq =>
    rcases h0 : getFloatArg st.env 0 args with _ | a0 <;>
      rcases h1 : getFloatArg st.env 1 args with _ | a1 <;>
      simp only [executeValueOp, h0, h1] <;>
      first
        | exact ce_refl st
        | exact ce_setDest st dest _
  | flt =>
    rcases h0 : getFloatArg st.env 0 args with _ | a0 <;>
      rcases h1 : getFloatArg st.env 1 args with _ | a1 <;>
      simp only [executeValueOp, h0, h1] <;>
      first
        | exact ce_refl st
        | exact ce_setDest st dest _
  | fgt =>
    rcases h0 : getFloatArg st.env 0 args with _ | a0 <;>
      rcases h1 : getFloatArg st.env 1 args with _ | a1 <;>
      simp only [executeValueOp, h0, h1] <;>
      first
        | exact ce_refl st
        | exact ce_setDest st dest _
  | fle =>
    rcases h0 : getFloatArg st.env 0 args with _ | a0 <;>
      rcases h1 : getFloatArg st.env 1 args with _ | a1 <;>
      simp only [executeValueOp, h0, h1] <;>
      first
        | exact ce_refl st
        | exact ce_setDest st dest _
  | fge =>
    rcases h0 : getFloatArg st.env 0 args with _ | a0 <;>
      rcases h1 : getFloatArg st.env 1 args with _ | a1 <;>
      simp only [executeValueOp, h0, h1] <;>
      first
        | exact ce_refl st
        | exact ce_setDest st dest _
  | call =>
    rcases h0 : funcs.get? 0 with _ | fIdx
    · simp only [executeValueOp, h0]
      exact ce_refl st
    · rcases h1 : prog.get fIdx with _ | callee
      · simp only [executeValueOp, h0, h1]
        exact ce_refl st
      · rcases h2 : make_func_args callee args st.env with _ | env2
        · simp only [executeValueOp, h0, h1, h2]
          exact ce_refl st
        · rcases h3 : executeLoop FO prog callee fuel 0 none { st with env := env2 }
            with ⟨st2, f | ret⟩
          · simp only [executeValueOp, h0, h1, h2, h3]
            have hl := hloop callee 0 none { st with env := env2 }
            rw [h3] at hl
            exact ce_trans (ce_of_parts rfl rfl) hl
          · have hl := hloop callee 0 none { st with env := env2 }
            rw [h3] at hl
            have hce : CountEvolves st st2 := ce_trans (ce_of_parts rfl rfl) hl
            rcases ret with _ | v
            · simp only [executeValueOp, h0, h1, h2, h3]
              exact hce
            · rcases h4 : st2.env.pop_frame with _ | env3 <;>
                simp only [executeValueOp, h0, h1, h2, h3, h4]
              · exact hce
              · exact ce_trans hce (ce_setDest { st2 with env := env3 } dest v)
  | phi =>
    rcases ll with _ | l
    · simp only [executeValueOp]
      exact ce_refl st
    · rcases h0 : listPosition l labels with _ | i
      · simp only [executeValueOp, h0]
        exact ce_refl st
      · rcases h1 : get_value st.env i args with _ | arg <;>
          simp only [executeValueOp, h0, h1] <;>
          first
            | exact ce_refl st
            | exact ce_setDest st dest _
  | alloc =>
    rcases h0 : getIntArg st.env 0 args with _ | a0
    · simp only [executeValueOp, h0]
      exact ce_refl st
    · rcases h1 : Heap.alloc st.heap a0 with ⟨h2, e | v⟩ <;>
        simp only [executeValueOp, h0, h1]
      · exact ce_of_parts rfl rfl
      · exact ce_setDest_from dest v (ce_of_parts rfl rfl)
  | load =>
    rcases h0 : getPtrArg st.env 0 args with _ | p
    · simp only [executeValueOp, h0]
      exact ce_refl st
    · rcases h1 : Heap.read st.heap p with e | v <;>
        simp only [executeValueOp, h0, h1]
      · exact ce_refl st
      · exact ce_setDest st dest _
  | ptradd =>
    rcases h0 : getPtrArg st.env 0 args with _ | p <;>
      rcases h1 : getIntArg st.env 1 args with _ | a1 <;>
      simp only [executeValueOp, h0, h1] <;>
      first
        | exact ce_refl st
        | exact ce_setDest st dest _

theorem eop_ce (FO : FloatOps) (prog : BBProgram) (fuel : Nat)
    (hloop : ∀ func idx lbl st,
      CountEvolves st ((executeLoop FO prog func fuel idx lbl st).1)) :
    ∀ func op args funcs blk next st,
      CountEvolves st
        ((executeEffectOp FO fuel prog func op args funcs blk next st).1) := by
  intro func op args funcs blk next st
  cases op with
  | jump =>
    rcases h0 : blk.exit.get? 0 with _ | e <;> simp only [executeEffectOp, h0] <;>
      exact ce_refl st
  | branch =>
    rcases h0 : getBoolArg st.env 0 args with _ | b
    · simp only [executeEffectOp, h0]
      exact ce_refl st
    · rcases h1 : blk.exit.get? (if b then 0 else 1) with _ | e <;>
        simp only [executeEffectOp, h0, h1] <;>
        exact ce_refl st
  | ret =>
    rcases h0 : func.return_type with _ | t
    · simp only [executeEffectOp, h0]
      exact ce_refl st
    · rcases h1 : get_value st.env 0 args with _ | v <;>
        simp only [executeEffectOp, h0, h1] <;>
        exact ce_refl st
  | print =>
    rcases h0 : displayArgs FO st.env args with _ | parts <;>
      simp only [executeEffectOp, h0]
    · exact ce_refl st
    · exact ce_of_parts rfl rfl
  | nop =>
    simp only [executeEffectOp]
    exact ce_refl st
  | call =>
    rcases h0 : funcs.get? 0 with _ | fIdx
    · simp only [executeEffectOp, h0]
      exact ce_refl st
    · rcases h1 : prog.get fIdx with _ | callee
      · simp only [executeEffectOp, h0, h1]
        exact ce_refl st
      · rcases h2 : make_func_args callee args st.env with _ | env2
        · simp only [executeEffectOp, h0, h1, h2]
          exact ce_refl st
        · have hl := hloop callee 0 none { st with env := env2 }
          rcases h3 : executeLoop FO prog callee fuel 0 none { st with env := env2 }
              with ⟨st2, f | ret⟩
          · simp only [executeEffectOp, h0, h1, h2, h3]
            rw [h3] at hl
            exact ce_trans (ce_of_parts rfl rfl) hl
          · rw [h3] at hl
            have hce : CountEvolves st st2 := ce_trans (ce_of_parts rfl rfl) hl
            rcases h4 : st2.env.pop_frame with _ | env3 <;>
              simp only [executeEffectOp, h0, h1, h2, h3, h4]
            · exact hce
            · exact ce_trans hce (ce_of_parts rfl rfl)
  | store =>
    rcases h0 : getPtrArg st.env 0 args with _ | p <;>
      rcases h1 : get_value st.env 1 args with _ | v <;>
      simp only [executeEffectOp, h0, h1]
    · exact ce_refl st
    · exact ce_refl st
    · exact ce_refl st
    · rcases h2 : Heap.write st.heap p v with ⟨hp2, e | u⟩ <;> simp only [h2] <;>
        exact ce_of_parts rfl rfl
  | free =>
    rcases h0 : getPtrArg st.env 0 args with _ | p
    · simp only [executeEffectOp, h0]
      exact ce_refl st
    · rcases h2 : Heap.free st.heap p with ⟨hp2, e | u⟩ <;>
        simp only [executeEffectOp, h0, h2] <;>
        exact ce_of_parts rfl rfl
  | speculate =>
    simp only [executeEffectOp]
    exact ce_refl st
  | commit =>
    simp only [executeEffectOp]
    exact ce_refl st
  | guard =>
    simp only [executeEffectOp]
    exact ce_refl st

theorem instrs_ce (FO : FloatOps) (prog : BBProgram) (fuel : Nat)
    (hloop : ∀ func idx lbl st,
      CountEvolves st ((executeLoop FO prog func fuel idx lbl st).1)) :
    ∀ insts func blk lbl st next res,
      CountEvolves st
        ((execInstrs FO fuel prog func blk lbl insts st next res).1) := by
  intro insts
  induction insts with
  | nil =>
    intro func blk lbl st next res
    rw [execInstrs.eq_def]
    exact ce_refl st
  | cons inst rest ih =>
    intro func blk lbl st next res
    rw [execInstrs.eq_def]
    cases inst with
    | const dest ctype lit pos =>
      by_cases hf : ctype = BrilType.float
      · subst hf
        cases lit with
        | int i =>
          rcases hs : setDest st dest (.float (FO.ofInt i)) with ⟨st2, f | u⟩ <;>
            simp only [hs, if_pos]
          · have := ce_setDest st dest (Value.float (FO.ofInt i))
            rw [hs] at this
            exact this
          · have hce : CountEvolves st st2 := by
              have := ce_setDest st dest (Value.float (FO.ofInt i))
              rw [hs] at this
              exact this
            exact ce_trans hce (ih func blk lbl st2 next res)
        | float fl =>
          rcases hs : setDest st dest (.float fl) with ⟨st2, f | u⟩ <;>
            simp only [hs, if_pos]
          · have := ce_setDest st dest (Value.float fl)
            rw [hs] at this
            exact this
          · have hce : CountEvolves st st2 := by
              have := ce_setDest st dest (Value.float fl)
              rw [hs] at this
              exact this
            exact ce_trans hce (ih func blk lbl st2 next res)
        | bool b =>
          simp only [if_pos]
          exact ce_refl st
      · rcases hs : setDest st dest (Value.ofLiteral lit) with ⟨st2, f | u⟩ <;>
          simp only [hs, if_neg hf]
        · have := ce_setDest st dest (Value.ofLiteral lit)
          rw [hs] at this
          exact this
        · have hce : CountEvolves st st2 := by
            have := ce_setDest st dest (Value.ofLiteral lit)
            rw [hs] at this
            exact this
          exact ce_trans hce (ih func blk lbl st2 next res)
    | value op dest args labels funcs pos =>
      rcases hv : executeValueOp FO fuel prog op dest args labels funcs lbl st
          with ⟨st2, f | u⟩ <;>
        simp only [hv]
      · have := vop_ce FO prog fuel hloop op dest args labels funcs lbl st
        rw [hv] at this
        exact this
      · have hce : CountEvolves st st2 := by
          have := vop_ce FO prog fuel hloop op dest args labels funcs lbl st
          rw [hv] at this
          exact this
        exact ce_trans hce (ih func blk lbl st2 next res)
    | effect op args funcs pos =>
      rcases he : executeEffectOp FO fuel prog func op args funcs blk next st
          with ⟨st2, f | rn⟩ <;>
        simp only [he]
      · have := eop_ce FO prog fuel hloop func op args funcs blk next st
        rw [he] at this
        exact this
      · have hce : CountEvolves st st2 := by
          have := eop_ce FO prog fuel hloop func op args funcs blk next st
          rw [he] at this
          exact this
        exact ce_trans hce (ih func blk lbl st2 rn.2 rn.1)

theorem loop_ce (FO : FloatOps) (prog : BBProgram) :
    ∀ fuel func idx lbl st,
      CountEvolves st ((executeLoop FO prog func fuel idx lbl st).1) := by
  intro fuel
  induction fuel with
  | zero =>
    intro func idx lbl st
    rw [executeLoop.eq_def]
    exact ce_refl st
  | succ fuel ih =>
    intro func idx lbl st
    rw [executeLoop.eq_def]
    rcases hb : func.blocks.get? idx with _ | blk
    · simp only [hb]
      exact ce_refl st
    · have hentry := ce_entry st blk.instrs.length
      rcases hi : execInstrs FO fuel prog func blk lbl blk.instrs
          { st with
            instruction_count :=
              (st.instruction_count + blk.instrs.length % 2 ^ 32) % 2 ^ 32,
            blocks_entered := st.blocks_entered ++ [blk.instrs.length] }
          (match blk.exit with
            | [e] => some e
            | _ => none) none with ⟨st2, f | nr⟩
      · simp only [hb, hi]
        have := instrs_ce FO prog fuel ih blk.instrs func blk lbl
          { st with
            instruction_count :=
              (st.instruction_count + blk.instrs.length % 2 ^ 32) % 2 ^ 32,
            blocks_entered := st.blocks_entered ++ [blk.instrs.length] }
          (match blk.exit with
            | [e] => some e
            | _ => none) none
        rw [hi] at this
        exact ce_trans hentry this
      · have hce : CountEvolves st st2 := by
          have := instrs_ce FO prog fuel ih blk.instrs func blk lbl
            { st with
              instruction_count :=
                (st.instruction_count + blk.instrs.length % 2 ^ 32) % 2 ^ 32,
              blocks_entered := st.blocks_entered ++ [blk.instrs.length] }
            (match blk.exit with
              | [e] => some e
              | _ => none) none
          rw [hi] at this
          exact ce_trans hentry this
        rcases nr with ⟨next, res⟩
        rcases next with _ | idx2
        · simp only [hb, hi]
          exact hce
        · simp only [hb, hi]
          exact ce_trans hce (ih func idx2 blk.label st2)

theorem countStep_lt (c l : Nat) : countStep c l < 2 ^ 32 := by
  unfold countStep
  exact Nat.mod_lt _ (by norm_num)

theorem countFold_from (ls : List Nat) : ∀ c, c < 2 ^ 32 →
    countFold c ls = (c + ls.sum) % 2 ^ 32 := by
  induction ls with
  | nil =>
    intro c hc
    simp only [countFold, List.foldl_nil, List.sum_nil]
    omega
  | cons l rest ih =>
    intro c hc
    show countFold (countStep c l) rest = _
    rw [ih (countStep c l) (countStep_lt c l)]
    unfold countStep
    rw [List.sum_cons]
    omega

theorem executeMain_ok_inversion (FO : FloatOps) (fuel : Nat) (prog : BBProgram)
    (inputs : List String) (profiling : Bool)
    (hok : (executeMain FO fuel prog inputs profiling).result = .ok ()) :
    ∃ mi mainFunc env st2 res,
      prog.index_of_main = some mi ∧ prog.get mi = some mainFunc ∧
      mainFunc.return_type = none ∧
      parse_args FO (Environment.new mainFunc.num_of_vars) mainFunc.args
        mainFunc.args_as_nums inputs = some (.ok env) ∧
      executeLoop FO prog mainFunc fuel 0 none
        ⟨env, Heap.defaultHeap, [], 0, []⟩ = (st2, .ok res) ∧
      st2.heap.is_empty = true ∧
      executeMain FO fuel prog inputs profiling =
        ⟨.ok (), st2.out,
          if profiling then [profileLine st2.instruction_count] else [],
          st2.heap, st2.instruction_count, st2.blocks_entered⟩ := by
  rcases him : prog.index_of_main with _ | mi
  · simp [executeMain, him] at hok
  · rcases hget : prog.get mi with _ | mainFunc
    · simp [executeMain, him, hget] at hok
    · rcases hrt : mainFunc.return_type with _ | t
      · rcases hparse : parse_args FO (Environment.new mainFunc.num_of_vars)
            mainFunc.args mainFunc.args_as_nums inputs with _ | pr
        · simp [executeMain, him, hget, hrt, hparse] at hok
        · rcases pr with e | env
          · simp [executeMain, him, hget, hrt, hparse] at hok
          · rcases hloop2 : executeLoop FO prog mainFunc fuel 0 none
                ⟨env, Heap.defaultHeap, [], 0, []⟩ with ⟨st2, f | res⟩
            · simp [executeMain, him, hget, hrt, hparse, hloop2] at hok
            · by_cases hemp : st2.heap.is_empty
              · refine ⟨mi, mainFunc, env, st2, res, rfl, hget, hrt, hparse,
                  hloop2, hemp, ?_⟩
                simp [executeMain, him, hget, hrt, hparse, hloop2, hemp]
              · simp [executeMain, him, hget, hrt, hparse, hloop2, hemp] at hok
      · simp [executeMain, him, hget, hrt] at hok

/-- C6 (amended): for every terminating successful execution, the reported
dynamic instruction count equals the sum, modulo `2^32` (the counter is a
`u32` and each block's length is cast to `u32`), over all executed blocks in
all function activations of the length of that block's instruction list, the
per-block amount being added at block entry. -/
theorem instr_count_mod_spec (FO : FloatOps) (fuel : Nat) (prog : BBProgram)
    (inputs : List String) (profiling : Bool)
    (hok : (executeMain FO fuel prog inputs profiling).result = .ok ()) :
    (executeMain FO fuel prog inputs profiling).icount =
      ((executeMain FO fuel prog inputs profiling).blocks).sum % 2 ^ 32 := by
  obtain ⟨mi, mainFunc, env, st2, res, him, hget, hrt, hparse, hloop2, hemp, hmain⟩ :=
    executeMain_ok_inversion FO fuel prog inputs profiling hok
  have hce := loop_ce FO prog fuel mainFunc 0 none ⟨env, Heap.defaultHeap, [], 0, []⟩
  rw [hloop2] at hce
  obtain ⟨d, hb, hc⟩ := hce
  have hb2 : st2.blocks_entered = d := by simpa using hb
  have hc2 : st2.instruction_count = countFold 0 d := hc
  rw [hmain]
  show st2.instruction_count = st2.blocks_entered.sum % 2 ^ 32
  rw [hb2, hc2, countFold_from d 0 (by norm_num), Nat.zero_add]

theorem execInstrs_nop (FO : FloatOps) (fuel : Nat) (prog : BBProgram)
    (func : BBFunction) (blk : BasicBlock) (lbl : Option String) :
    ∀ (n : Nat) (st : State) (next : Option Nat),
      execInstrs FO fuel prog func blk lbl
        (List.replicate n (.effect .nop [] [] none)) st next none =
        (st, .ok (next, none)) := by
  intro n
  induction n with
  | zero =>
    intro st next
    rw [List.replicate_zero, execInstrs.eq_def]
  | succ n ih =>
    intro st next
    rw [List.replicate_succ, execInstrs.eq_def]
    show (match executeEffectOp FO fuel prog func .nop [] [] blk next st with
      | (st2, Except.error f) => (st2, Except.error (f.addPos none))
      | (st2, Except.ok rn) =>
        execInstrs FO fuel prog func blk lbl
          (List.replicate n (.effect .nop [] [] none)) st2 rn.2 rn.1) =
      (st, .ok (next, none))
    rw [show executeEffectOp FO fuel prog func .nop [] [] blk next st =
      (st, .ok (none, next)) from by simp only [executeEffectOp]]
    exact ih st next

theorem nopProg_loop_eval (n : Nat) :
    executeLoop FO0 (nopProg n) (nopFunc n) 1 0 none
      ⟨Environment.new 0, Heap.defaultHeap, [], 0, []⟩ =
      (⟨Environment.new 0, Heap.defaultHeap, [], (0 + n % 2 ^ 32) % 2 ^ 32, [n]⟩,
        .ok none) := by
  have hblocks : (nopFunc n).blocks.get? 0 =
      some ⟨none, List.replicate n (.effect .nop [] [] none), []⟩ := rfl
  rw [executeLoop.eq_def]
  simp only [hblocks, List.length_replicate, execInstrs_nop, List.nil_append]

theorem nopProg_main_eval (n : Nat) :
    executeMain FO0 1 (nopProg n) [] true =
      ⟨.ok (), [], [profileLine ((0 + n % 2 ^ 32) % 2 ^ 32)], Heap.defaultHeap,
        (0 + n % 2 ^ 32) % 2 ^ 32, [n]⟩ := by
  unfold executeMain
  show (match executeLoop FO0 (nopProg n) (nopFunc n) 1 0 none
      ⟨Environment.new 0, Heap.defaultHeap, [], 0, []⟩ with
    | (st2, Except.error f) =>
      (⟨Except.error f, st2.out, [], st2.heap, st2.instruction_count,
        st2.blocks_entered⟩ : MainResult)
    | (st2, Except.ok _) =>
      if st2.heap.is_empty then
        ⟨Except.ok (), st2.out, [profileLine st2.instruction_count], st2.heap,
          st2.instruction_count, st2.blocks_entered⟩
      else
        ⟨Except.error (Failure.addPos (.interp .memLeak) (nopFunc n).pos), st2.out,
          [], st2.heap, st2.instruction_count, st2.blocks_entered⟩) = _
  rw [nopProg_loop_eval n]
  rfl

theorem instr_count_mod_spec_witness :
    (executeMain FO0 1 twoNopProg [] true).icount =
      ((executeMain FO0 1 twoNopProg [] true).blocks).sum % 2 ^ 32 := by
  refine instr_count_mod_spec FO0 1 twoNopProg [] true ?_
  have h : executeMain FO0 1 twoNopProg [] true =
      ⟨.ok (), [], [profileLine ((0 + 2 % 2 ^ 32) % 2 ^ 32)], Heap.defaultHeap,
        (0 + 2 % 2 ^ 32) % 2 ^ 32, [2]⟩ := nopProg_main_eval 2
  rw [h]

/-- C6 counterexample: a terminating program of one block holding `2^32`
`nop`s executes `2^32` dynamic instructions, but the reported count is `0`
(the `u32` counter wraps), so the reported count does not equal the sum over
executed blocks of the lengths of their instruction lists. -/
theorem instr_count_claim_counterexample :
    (executeMain FO0 1 hugeBlockProg [] true).result = .ok () ∧
    (executeMain FO0 1 hugeBlockProg [] true).blocks = [2 ^ 32] ∧
    (executeMain FO0 1 hugeBlockProg [] true).icount = 0 ∧
    (executeMain FO0 1 hugeBlockProg [] true).icount ≠
      ((executeMain FO0 1 hugeBlockProg [] true).blocks).sum := by
  have h : executeMain FO0 1 hugeBlockProg [] true =
      ⟨.ok (), [], [profileLine ((0 + 2 ^ 32 % 2 ^ 32) % 2 ^ 32)], Heap.defaultHeap,
        (0 + 2 ^ 32 % 2 ^ 32) % 2 ^ 32, [2 ^ 32]⟩ := nopProg_main_eval (2 ^ 32)
  have hz : (0 + 2 ^ 32 % 2 ^ 32) % 2 ^ 32 = 0 := by norm_num
  rw [hz] at h
  refine ⟨by rw [h], by rw [h], by rw [h], ?_⟩
  rw [h]
  show (0 : Nat) ≠ List.sum [2 ^ 32]
  norm_num

/-- C8: when the entry function's execution completes normally, the heap
decides the outcome only afterwards: a non-empty heap turns the run into
`MemLeak` with all output already on the sink, an empty heap is a success. -/
theorem memleak_spec (FO : FloatOps) (fuel : Nat) (prog : BBProgram)
    (inputs : List String) (profiling : Bool) (mi : Nat) (mainFunc : BBFunction)
    (env : Environment) (st2 : State) (res : Option Value)
    (him : prog.index_of_main = some mi)
    (hget : prog.get mi = some mainFunc)
    (hrt : mainFunc.return_type = none)
    (hparse : parse_args FO (Environment.new mainFunc.num_of_vars) mainFunc.args
      mainFunc.args_as_nums inputs = some (.ok env))
    (hloop2 : executeLoop FO prog mainFunc fuel 0 none
      ⟨env, Heap.defaultHeap, [], 0, []⟩ = (st2, .ok res)) :
    (st2.heap.is_empty = false →
      executeMain FO fuel prog inputs profiling =
        ⟨.error (.positioned .memLeak mainFunc.pos), st2.out, [], st2.heap,
          st2.instruction_count, st2.blocks_entered⟩) ∧
    (st2.heap.is_empty = true →
      executeMain FO fuel prog inputs profiling =
        ⟨.ok (), st2.out,
          if profiling then [profileLine st2.instruction_count] else [],
          st2.heap, st2.instruction_count, st2.blocks_entered⟩) := by
  constructor
  · intro hemp
    simp [executeMain, him, hget, hrt, hparse, hloop2, hemp, Failure.addPos]
  · intro hemp
    simp [executeMain, him, hget, hrt, hparse, hloop2, hemp]

theorem memleak_spec_witness :
    (executeMain FO0 1 leakProg [] false).result =
      .error (.positioned .memLeak none) ∧
    (executeMain FO0 1 leakProg [] false).out = ["1"] := by
  have hloop2 : executeLoop FO0 leakProg leakFunc 1 0 none
      ⟨Environment.new 2, Heap.defaultHeap, [], 0, []⟩ =
      (⟨⟨0, 2, [],
          ((List.replicate 50 Value.uninitialized).set 0 (Value.int 1)).set 1
            (Value.pointer ⟨0, 0⟩)⟩,
        ⟨[(0, [Value.uninitialized])], 1⟩, ["1"], 3, [3]⟩, .ok none) := by
    simp [executeLoop, execInstrs, executeValueOp, executeEffectOp, leakFunc,
      setDest, Environment.set, Environment.new, get_value, getIntArg,
      Environment.get, Heap.alloc, Heap.defaultHeap, hmInsert, hmRemove,
      displayArgs, Value.display, Value.asInt, Value.ofLiteral, Value.defaultVal]
    rfl
  have hs := memleak_spec FO0 1 leakProg [] false 0 leakFunc (Environment.new 2)
    _ none rfl rfl rfl rfl hloop2
  have h1 := hs.1 rfl
  exact ⟨by rw [h1]; rfl, by rw [h1]⟩

theorem parseArgsLoop_fail (FO : FloatOps) :
    ∀ (j : Nat) (entries : List (BrilType × Nat)) (env : Environment) (idx : Nat)
      (inputs : List String) (ty : BrilType) (argNum : Nat) (raw : String),
      entries.get? j = some (ty, argNum) →
      inputs.get? (idx + j) = some raw →
      parseScalar FO ty raw = none →
      (ty = .int ∨ ty = .bool ∨ ty = .float) →
      (∀ k, k < j → ∃ tyk numk rawk v,
        entries.get? k = some (tyk, numk) ∧ inputs.get? (idx + k) = some rawk ∧
        parseScalar FO tyk rawk = some v ∧
        env.current_pointer + numk < env.env.length) →
      parseArgsLoop FO env entries idx inputs =
        some (.error (.badFuncArgType ty raw)) := by
  intro j
  induction j with
  | zero =>
    intro entries env idx inputs ty argNum raw hj hraw hfail hscalar _
    rcases entries with _ | ⟨⟨ty0, num0⟩, rest⟩
    · exact Option.noConfusion hj
    · simp only [List.get?_cons_zero] at hj
      obtain ⟨rfl, rfl⟩ : ty0 = ty ∧ num0 = argNum := by
        have := Option.some.inj hj
        exact ⟨congrArg Prod.fst this, congrArg Prod.snd this⟩
      rw [Nat.add_zero] at hraw
      rcases hscalar with rfl | rfl | rfl
      · have hp : parseI64 raw = none := by
          have := hfail
          simp only [parseScalar, Option.map_eq_none'] at this
          exact this
        simp only [parseArgsLoop, hraw, hp]
      · have hp : parseBool raw = none := by
          have := hfail
          simp only [parseScalar, Option.map_eq_none'] at this
          exact this
        simp only [parseArgsLoop, hraw, hp]
      · have hp : FO.parse raw = none := by
          have := hfail
          simp only [parseScalar, Option.map_eq_none'] at this
          exact this
        simp only [parseArgsLoop, hraw, hp]
  | succ j ih =>
    intro entries env idx inputs ty argNum raw hj hraw hfail hscalar hall
    rcases entries with _ | ⟨⟨ty0, num0⟩, rest⟩
    · exact Option.noConfusion hj
    · obtain ⟨tyk, numk, rawk, v, hek, hik, hvk, hrange⟩ := hall 0 (Nat.succ_pos j)
      simp only [List.get?_cons_zero] at hek
      obtain ⟨rfl, rfl⟩ : ty0 = tyk ∧ num0 = numk := by
        have := Option.some.inj hek
        exact ⟨congrArg Prod.fst this, congrArg Prod.snd this⟩
      rw [Nat.add_zero] at hik
      have hj2 : rest.get? j = some (ty, argNum) := by simpa using hj
      have hstep : ∀ env2 : Environment,
          env2.current_pointer = env.current_pointer →
          env2.env.length = env.env.length →
          parseArgsLoop FO env2 rest (idx + 1) inputs =
            some (.error (.badFuncArgType ty raw)) := by
        intro env2 hcp hlen
        refine ih rest env2 (idx + 1) inputs ty argNum raw hj2 ?_ hfail hscalar ?_
        · rw [show idx + 1 + j = idx + (j + 1) by omega]
          exact hraw
        · intro k hk
          obtain ⟨tyk2, numk2, rawk2, v2, hek2, hik2, hvk2, hrange2⟩ :=
            hall (k + 1) (by omega)
          refine ⟨tyk2, numk2, rawk2, v2, by simpa using hek2, ?_, hvk2, ?_⟩
          · rw [show idx + 1 + k = idx + (k + 1) by omega]
            exact hik2
          · rw [hcp, hlen]
            exact hrange2
      have hsetOk : ∀ val : Value, ∃ env2, env.set num0 val = some env2 ∧
          env2.current_pointer = env.current_pointer ∧
          env2.env.length = env.env.length := by
        intro val
        refine ⟨{ env with env := env.env.set (env.current_pointer + num0) val },
          ?_, rfl, by simp⟩
        unfold Environment.set
        rw [if_pos hrange]
      rcases ty0 with _ | _ | _ | tp
      · -- int
        simp only [parseScalar, Option.map_eq_some'] at hvk
        obtain ⟨i, hi, _⟩ := hvk
        obtain ⟨env2, hset, hcp, hlen⟩ := hsetOk (.int i)
        simp only [parseArgsLoop, hik, hi, hset]
        exact hstep env2 hcp hlen
      · -- bool
        simp only [parseScalar, Option.map_eq_some'] at hvk
        obtain ⟨b, hb, _⟩ := hvk
        obtain ⟨env2, hset, hcp, hlen⟩ := hsetOk (.bool b)
        simp only [parseArgsLoop, hik, hb, hset]
        exact hstep env2 hcp hlen
      · -- float
        simp only [parseScalar, Option.map_eq_some'] at hvk
        obtain ⟨f, hf, _⟩ := hvk
        obtain ⟨env2, hset, hcp, hlen⟩ := hsetOk (.float f)
        simp only [parseArgsLoop, hik, hf, hset]
        exact hstep env2 hcp hlen
      · -- pointer: impossible, parseScalar gives none
        simp only [parseScalar] at hvk
        exact Option.noConfusion hvk

/-- C7: a type-mismatched entry input makes `execute_main` fail with
`BadFuncArgType(declared type, raw string)` before anything executes (no
output, empty heap, zero instruction count); a mismatched input count gives
`BadNumFuncArgs` instead. -/
theorem bad_func_arg_spec (FO : FloatOps) (fuel : Nat) (prog : BBProgram)
    (inputs : List String) (profiling : Bool) (mi : Nat) (mainFunc : BBFunction)
    (him : prog.index_of_main = some mi) (hget : prog.get mi = some mainFunc)
    (hrt : mainFunc.return_type = none) :
    (∀ j ty argNum raw,
      inputs.length = mainFunc.args.length →
      (mainFunc.args.zip mainFunc.args_as_nums).get? j = some (ty, argNum) →
      inputs.get? j = some raw →
      parseScalar FO ty raw = none →
      (ty = .int ∨ ty = .bool ∨ ty = .float) →
      (∀ k, k < j → ∃ tyk numk rawk v,
        (mainFunc.args.zip mainFunc.args_as_nums).get? k = some (tyk, numk) ∧
        inputs.get? k = some rawk ∧ parseScalar FO tyk rawk = some v ∧
        numk < (Environment.new mainFunc.num_of_vars).env.length) →
      executeMain FO fuel prog inputs profiling =
        ⟨.error (.positioned (.badFuncArgType ty raw) mainFunc.pos), [], [],
          Heap.defaultHeap, 0, []⟩) ∧
    (inputs.length ≠ mainFunc.args.length →
      executeMain FO fuel prog inputs profiling =
        ⟨.error (.positioned (.badNumFuncArgs mainFunc.args.length inputs.length)
            mainFunc.pos), [], [], Heap.defaultHeap, 0, []⟩) := by
  constructor
  · intro j ty argNum raw hlen hj hraw hfail hscalar hall
    have hne : ¬(mainFunc.args.isEmpty ∧ inputs.isEmpty) := by
      intro ⟨ha, _⟩
      have : mainFunc.args.zip mainFunc.args_as_nums = [] := by
        rcases hargs : mainFunc.args with _ | ⟨a, rest⟩
        · rfl
        · rw [hargs] at ha
          simp [List.isEmpty] at ha
      rw [this] at hj
      simp at hj
    have hploop : parseArgsLoop FO (Environment.new mainFunc.num_of_vars)
        (mainFunc.args.zip mainFunc.args_as_nums) 0 inputs =
        some (.error (.badFuncArgType ty raw)) := by
      refine parseArgsLoop_fail FO j (mainFunc.args.zip mainFunc.args_as_nums)
        (Environment.new mainFunc.num_of_vars) 0 inputs ty argNum raw hj
        (by simpa using hraw) hfail hscalar ?_
      intro k hk
      obtain ⟨tyk, numk, rawk, v, h1, h2, h3, h4⟩ := hall k hk
      exact ⟨tyk, numk, rawk, v, h1, by simpa using h2, h3, by
        show (Environment.new mainFunc.num_of_vars).current_pointer + numk < _
        simpa [Environment.new] using h4⟩
    have hparse : parse_args FO (Environment.new mainFunc.num_of_vars)
        mainFunc.args mainFunc.args_as_nums inputs =
        some (.error (.badFuncArgType ty raw)) := by
      unfold parse_args
      rw [if_neg hne, if_neg (by omega : ¬ inputs.length ≠ mainFunc.args.length)]
      exact hploop
    simp [executeMain, him, hget, hrt, hparse, Failure.addPos]
  · intro hlen
    have hne : ¬(mainFunc.args.isEmpty ∧ inputs.isEmpty) := by
      intro ⟨ha, hi⟩
      rcases hargs : mainFunc.args with _ | _
      · rcases hinp : inputs with _ | _
        · rw [hargs, hinp] at hlen
          simp at hlen
        · rw [hinp] at hi
          simp [List.isEmpty] at hi
      · rw [hargs] at ha
        simp [List.isEmpty] at ha
    have hparse : parse_args FO (Environment.new mainFunc.num_of_vars)
        mainFunc.args mainFunc.args_as_nums inputs =
        some (.error (.badNumFuncArgs mainFunc.args.length inputs.length)) := by
      unfold parse_args
      rw [if_neg hne, if_pos hlen]
    simp [executeMain, him, hget, hrt, hparse, Failure.addPos]

theorem bad_func_arg_spec_witness :
    executeMain FO0 1 intArgProg ["hello"] false =
      ⟨.error (.positioned (.badFuncArgType .int "hello") none), [], [],
        Heap.defaultHeap, 0, []⟩ ∧
    executeMain FO0 1 intArgProg [] false =
      ⟨.error (.positioned (.badNumFuncArgs 1 0) none), [], [],
        Heap.defaultHeap, 0, []⟩ := by
  have hs := bad_func_arg_spec FO0 1 intArgProg ["hello"] false 0 intArgFunc
    rfl rfl rfl
  have hs2 := bad_func_arg_spec FO0 1 intArgProg [] false 0 intArgFunc
    rfl rfl rfl
  constructor
  · exact hs.1 0 .int 0 "hello" rfl rfl rfl (by decide) (Or.inl rfl)
      (by intro k hk; omega)
  · exact hs2.2 (by decide)

end Brilirs
